import Mathlib

/-! # tcp-proxy: a verification development of `main.go`

The Go program is embedded shallowly:

* `ProxyConfig`, `Config`, `Proxy`, `ProxyManager` mirror the Go structs;
* pointers to `Proxy` objects are indices into a heap of allocated proxies, so that the
  registry `map[string]*Proxy` and the accept-loop goroutine share one object;
* the network is an oracle: the outcome of the k-th `net.Listen` call, of the dial attempts of a
  connection handler, of the `Accept` calls of an accept loop;
* sequential functions (`setDefaults`, `startProxies`, `startProxy`, the dial loop and the
  body of `handleConnection`, the loop of `handleProxy`) are Lean functions that return the
  events they perform; goroutine interleavings are runs of atomic actions over `World`.
-/

namespace TcpProxy

/-! ## Data model (main.go, lines 18-46) -/

/-- The Go struct `ProxyConfig`. -/
structure ProxyConfig where
  Name : String
  LocalHost : String
  LocalPort : Int
  RemoteHost : String
  RemotePort : Int
  Enabled : Bool
deriving DecidableEq, Repr

/-- The Go struct `Config`. -/
structure Config where
  Proxies : List ProxyConfig
deriving DecidableEq, Repr

/-! ## setDefaults (main.go, lines 106-112) -/

/-- One iteration of the loop of `setDefaults`: the body at index `i`. -/
def setDefaultsStep (ps : List ProxyConfig) (i : Nat) : List ProxyConfig :=
  match ps[i]? with
  | some p => if p.LocalHost = "" then ps.set i { p with LocalHost := "0.0.0.0" } else ps
  | none => ps

/-- The function `setDefaults`: `for i := range config.Proxies`, in place. -/
def setDefaults (config : Config) : Config :=
  { Proxies := (List.range config.Proxies.length).foldl setDefaultsStep config.Proxies }

/-- What `setDefaults` does to one definition. -/
def defaultLocalHost (p : ProxyConfig) : ProxyConfig :=
  if p.LocalHost = "" then { p with LocalHost := "0.0.0.0" } else p

/-! ## Runtime model (main.go, lines 31-46) -/

/-- The result of `fmt.Sprintf("%s:%d", host, port)`. -/
def hostPort (host : String) (port : Int) : String :=
  host ++ ":" ++ toString port

/-- A `net.Listener`: the address it is bound to and whether `Close` has been called on it. -/
structure Listener where
  addr : String
  closed : Bool
deriving DecidableEq, Repr

/-- The Go struct `Proxy`. The pair `ctx`, `cancel` is the flag `canceled`: whether the proxy's
own `CancelFunc` has been called (its context is a child of the manager's, see `ctxDone`). -/
structure Proxy where
  config : ProxyConfig
  listener : Listener
  active : Bool
  canceled : Bool
deriving DecidableEq, Repr

/-- The Go struct `ProxyManager`. `proxies` is the map from names to `*Proxy` (a pointer is an
index into `World.heap`), `canceled` says whether `pm.cancel` has been called, `wg` is the
counter of the `sync.WaitGroup`. The mutex is not represented: every action below is atomic. -/
structure ProxyManager where
  config : Config
  proxies : List (String × Nat)
  canceled : Bool
  wg : Nat
deriving DecidableEq, Repr

/-- A connection: one accepted from a client by a listener, or one dialed to a remote. -/
inductive Conn
  | client (id : Nat)
  | server (id : Nat)
deriving DecidableEq, Repr

/-- Where the goroutine running `handleProxy` stands: at the `select` of line 164, blocked in
`Accept` at line 170, or returned. -/
inductive LoopPC
  | select
  | accept
  | returned
deriving DecidableEq, Repr

/-- Where a goroutine running `handleConnection` stands: in the dial loop (lines 193-206),
blocked on `<-ctx.Done()` at line 237 with the dialed server connection, or returned. -/
inductive ConnPC
  | dialing
  | relaying (serverConn : Conn)
  | returned
deriving DecidableEq, Repr

/-- A goroutine spawned by the manager: `go pm.handleProxy(proxy)` (line 151) or
`go pm.handleConnection(proxy, conn)` (line 181). -/
inductive Goroutine
  | handleProxy (proxy : Nat) (pc : LoopPC)
  | handleConnection (proxy : Nat) (clientConn : Conn) (pc : ConnPC)
deriving DecidableEq, Repr

/-- Where `main` stands: before `startProxies` (line 69), stopped by `log.Fatalf` (line 70),
blocked on the signal channel (line 86), blocked in `pm.wg.Wait()` inside `shutdown` (line 252),
or past the return of `shutdown`. -/
inductive MainPC
  | starting
  | fatal
  | serving
  | waiting
  | done
deriving DecidableEq, Repr

/-- The state of the running program. -/
structure World where
  pm : ProxyManager
  heap : List Proxy
  goroutines : List Goroutine
  listens : List String
  closedConns : List Conn
  main : MainPC
  logs : List String
deriving DecidableEq, Repr

/-- The manager as `main` builds it (lines 59-67): empty registry, fresh context. -/
def newWorld (config : Config) : World :=
  { pm := { config := config, proxies := [], canceled := false, wg := 0 }
    heap := []
    goroutines := []
    listens := []
    closedConns := []
    main := .starting
    logs := [] }

/-- The assignment `m[k] = v` on a Go map. -/
def mapSet (m : List (String × Nat)) (k : String) (v : Nat) : List (String × Nat) :=
  (k, v) :: m.filter (fun e => e.1 ≠ k)

/-- The keys of a Go map. -/
def mapKeys (m : List (String × Nat)) : List String :=
  m.map Prod.fst

/-- Whether `proxy.ctx.Done()` is closed: the context of a proxy is derived from the manager's
(line 138), so it is done when either cancel function has been called. -/
def ctxDone (w : World) (ref : Nat) : Bool :=
  w.pm.canceled || (match w.heap[ref]? with
    | some p => p.canceled
    | none => false)

/-! ## startProxies and startProxy (main.go, lines 114-157) -/

/-- The outcome of `net.Listen`: the k-th call of the run, on the given address, fails with an
error (`some err`) or succeeds (`none`). -/
abbrev ListenOracle := Nat → String → Option String

/-- The function `startProxy`. Returns the error (`none` is Go's `nil`) and the new state. -/
def startProxy (net : ListenOracle) (config : ProxyConfig) (w : World) : Option String × World :=
  let localAddr := hostPort config.LocalHost config.LocalPort
  let w1 := { w with listens := w.listens ++ [localAddr] }
  match net w.listens.length localAddr with
  | some err => (some ("failed to listen on " ++ localAddr ++ ": " ++ err), w1)
  | none =>
    let proxy : Proxy :=
      { config := config
        listener := { addr := localAddr, closed := false }
        active := true
        canceled := false }
    let ref := w1.heap.length
    (none,
      { w1 with
        heap := w1.heap ++ [proxy]
        pm := { w1.pm with
                proxies := mapSet w1.pm.proxies config.Name ref
                wg := w1.pm.wg + 1 }
        goroutines := w1.goroutines ++ [Goroutine.handleProxy ref LoopPC.select]
        logs := w1.logs ++ ["Started proxy " ++ config.Name ++ ": " ++ localAddr ++ " -> "
          ++ hostPort config.RemoteHost config.RemotePort] })

/-- The loop of `startProxies` over the remaining definitions. -/
def startProxiesLoop (net : ListenOracle) : List ProxyConfig → World → Option String × World
  | [], w => (none, w)
  | proxyConfig :: rest, w =>
    if !proxyConfig.Enabled then
      startProxiesLoop net rest
        { w with logs := w.logs ++ ["Skipping disabled proxy: " ++ proxyConfig.Name] }
    else
      match startProxy net proxyConfig w with
      | (some err, w1) =>
        (some ("failed to start proxy " ++ proxyConfig.Name ++ ": " ++ err), w1)
      | (none, w1) => startProxiesLoop net rest w1

/-- The function `startProxies`. -/
def startProxies (net : ListenOracle) (w : World) : Option String × World :=
  startProxiesLoop net w.pm.config.Proxies w

/-- The definitions with `enabled = true`, in configuration order. -/
def enabledDefs (config : Config) : List ProxyConfig :=
  config.Proxies.filter (fun c => c.Enabled)

/-- The listen address `localHost:localPort` of a definition. -/
def localAddrOf (c : ProxyConfig) : String :=
  hostPort c.LocalHost c.LocalPort

/-- The `Proxy` object that `startProxy` allocates for a definition (lines 140-146). -/
def proxyOf (c : ProxyConfig) : Proxy :=
  { config := c
    listener := { addr := localAddrOf c, closed := false }
    active := true
    canceled := false }

/-- The number of leading definitions of a list whose listen succeeds, the listen of the first
one being call number `base`. -/
def listenSuccesses (net : ListenOracle) : Nat → List ProxyConfig → Nat
  | _, [] => 0
  | base, c :: cs =>
    match net base (localAddrOf c) with
    | none => listenSuccesses net (base + 1) cs + 1
    | some _ => 0

/-- The registry after the definitions of a list have been started in order, the first one
getting the pointer `base`. -/
def registryAfter : Nat → List (String × Nat) → List ProxyConfig → List (String × Nat)
  | _, m, [] => m
  | base, m, c :: cs => registryAfter (base + 1) (mapSet m c.Name base) cs

/-! ## handleConnection (main.go, lines 185-238) -/

/-- What the goroutines running `handleProxy` and `handleConnection` do, in program order.
Durations are in nanoseconds, as `time.Duration`. `nilDereference` is the panic of
`serverConn.Close` on a nil interface. -/
inductive Event
  | accept
  | dial (addr : String) (timeout : Int)
  | sleep (d : Int)
  | log (msg : String)
  | goHandleConnection (clientConn : Conn)
  | goCopy (dst src : Conn)
  | awaitDone
  | cancelConn
  | close (c : Conn)
  | closeListener
  | wgDone
  | nilDereference
deriving DecidableEq, Repr

/-- The conversion of a 64-bit two's complement product back into range. -/
def wrapInt64 (x : Int) : Int :=
  (x + 2 ^ 63) % 2 ^ 64 - 2 ^ 63

/-- The constant `time.Second`, in nanoseconds. -/
def Second : Int := 1000000000

/-- The argument of `time.Sleep` at line 204: `time.Duration(attempt) * time.Second`. -/
def backoff (attempt : Nat) : Int :=
  wrapInt64 ((attempt : Int) * Second)

/-- The `Timeout` of the dialer at line 195: `10 * time.Second`. -/
def dialTimeout : Int :=
  wrapInt64 (10 * Second)

/-- The outcome of `dialer.Dial`: attempt number `attempt` of a handler, on the given address,
returns the identifier of a new server connection or an error. -/
abbrev DialOracle := Nat → String → Except String Nat

/-- The variables `serverConn` and `err` of `handleConnection`, and the events so far. -/
structure DialState where
  serverConn : Option Conn
  err : Option String
  events : List Event
deriving DecidableEq, Repr

/-- The loop `for attempt := 1; attempt <= 3; attempt++` of lines 193-206, entered with the
given value of `attempt`. The first argument bounds the number of iterations; three suffice
from `attempt = 1` (`dialLoop_fuel`). -/
def dialLoop (dial : DialOracle) (remoteAddr : String) : Nat → Nat → DialState → DialState
  | 0, _, st => st
  | fuel + 1, attempt, st =>
    if attempt ≤ 3 then
      let events := st.events ++ [Event.dial remoteAddr dialTimeout]
      match dial attempt remoteAddr with
      | .ok c => { serverConn := some (Conn.server c), err := none, events := events }
      | .error e =>
        let events := events ++ [Event.log ("Connection attempt " ++ toString attempt ++ " to "
          ++ remoteAddr ++ " failed: " ++ e)]
        let events := if attempt < 3 then events ++ [Event.sleep (backoff attempt)] else events
        dialLoop dial remoteAddr fuel (attempt + 1)
          { serverConn := none, err := some e, events := events }
    else st

/-- The dial loop as `handleConnection` runs it: from `attempt = 1`, both variables nil. -/
def dialWithRetry (dial : DialOracle) (remoteAddr : String) : DialState :=
  dialLoop dial remoteAddr 3 1 { serverConn := none, err := none, events := [] }

/-- The address `remoteHost:remotePort` of a definition (line 188). -/
def remoteAddrOf (c : ProxyConfig) : String :=
  hostPort c.RemoteHost c.RemotePort

/-- The function `handleConnection`, as the events it performs up to its return. The deferred
calls run last, in reverse order of their `defer` statements. The log line of line 215 is
kept without the client's address, which connections do not carry here. -/
def handleConnection (dial : DialOracle) (proxy : Proxy) (clientConn : Conn) : List Event :=
  let remoteAddr := remoteAddrOf proxy.config
  let st := dialWithRetry dial remoteAddr
  match st.err with
  | some e =>
    st.events ++
      [ Event.log ("Failed to connect to remote server " ++ remoteAddr ++ " for proxy "
          ++ proxy.config.Name ++ " after 3 attempts: " ++ e),
        Event.close clientConn ]
  | none =>
    match st.serverConn with
    | none => st.events ++ [Event.nilDereference, Event.close clientConn]
    | some serverConn =>
      st.events ++
        [ Event.log ("Established connection for proxy " ++ proxy.config.Name ++ " -> "
            ++ remoteAddr),
          Event.goCopy serverConn clientConn,
          Event.goCopy clientConn serverConn,
          Event.awaitDone,
          Event.cancelConn,
          Event.close serverConn,
          Event.close clientConn ]

/-- The addresses of the dial attempts among some events, in order. -/
def dialAttempts : List Event → List String
  | [] => []
  | Event.dial addr _ :: rest => addr :: dialAttempts rest
  | _ :: rest => dialAttempts rest

/-- The dial attempts and the sleeps among some events, in order: the other events dropped. -/
def timeline : List Event → List Event
  | [] => []
  | Event.dial addr t :: rest => Event.dial addr t :: timeline rest
  | Event.sleep d :: rest => Event.sleep d :: timeline rest
  | _ :: rest => timeline rest

/-- The durations of the sleeps among some events, in order. -/
def sleeps : List Event → List Int
  | [] => []
  | Event.sleep d :: rest => d :: sleeps rest
  | _ :: rest => sleeps rest

/-- The connections closed among some events, in order. -/
def closes : List Event → List Conn
  | [] => []
  | Event.close c :: rest => c :: closes rest
  | _ :: rest => closes rest

/-! ## handleProxy (main.go, lines 159-183) -/

/-- The `select` of lines 164-168, given whether `proxy.ctx.Done()` is closed: return, or go on
to `Accept`. -/
def selectStep (done : Bool) : LoopPC :=
  if done then LoopPC.returned else LoopPC.accept

/-- Lines 170-181, once `Accept` has returned with `result`; `done` is whether
`proxy.ctx.Done()` is closed at the `select` of line 172, which is read only when `Accept`
failed. Gives where the loop goes next and what it did. -/
def acceptStep (name : String) (result : Except String Nat) (done : Bool) :
    LoopPC × List Event :=
  match result with
  | .error e =>
    if done then (LoopPC.returned, [])
    else (LoopPC.select,
      [Event.log ("Failed to accept connection for proxy " ++ name ++ ": " ++ e)])
  | .ok c => (LoopPC.select, [Event.goHandleConnection (Conn.client c)])

/-- What one iteration of the accept loop observes: the cancellation scope at the `select` of
line 164, the outcome of `Accept`, and the cancellation scope at the `select` of line 172. -/
structure AcceptObs where
  doneBefore : Bool
  result : Except String Nat
  doneAfter : Bool

/-- The loop of `handleProxy` run on the observations of its successive iterations: whether it
has returned, and the events so far. With no observation left the loop is still running. -/
def handleProxyLoop (name : String) : List AcceptObs → Bool × List Event
  | [] => (false, [])
  | o :: rest =>
    match selectStep o.doneBefore with
    | LoopPC.returned => (true, [])
    | _ =>
      match acceptStep name o.result o.doneAfter with
      | (LoopPC.returned, evs) => (true, Event.accept :: evs)
      | (_, evs) =>
        let r := handleProxyLoop name rest
        (r.1, Event.accept :: evs ++ r.2)

/-- The function `handleProxy`: the loop, then on return the deferred `listener.Close()` and
`pm.wg.Done()`. -/
def handleProxy (proxy : Proxy) (obs : List AcceptObs) : Bool × List Event :=
  let r := handleProxyLoop proxy.config.Name obs
  if r.1 then (true, r.2 ++ [Event.closeListener, Event.wgDone]) else r

/-- Whether an iteration observes the cancellation scope as triggered at a point where the loop
reads it: at line 164, or at line 172 after a failed `Accept`. -/
def observesCancel (o : AcceptObs) : Bool :=
  o.doneBefore ||
    (match o.result with
     | .error _ => o.doneAfter
     | .ok _ => false)

/-- The events of an iteration that does not leave the loop: the `Accept`, then the spawn of
one handler for an accepted connection, or the log of the error. -/
def iterEvents (name : String) (o : AcceptObs) : List Event :=
  match o.result with
  | .ok c => [Event.accept, Event.goHandleConnection (Conn.client c)]
  | .error e =>
    [Event.accept, Event.log ("Failed to accept connection for proxy " ++ name ++ ": " ++ e)]

/-- The events of a run of iterations none of which leaves the loop. -/
def loopEvents (name : String) : List AcceptObs → List Event
  | [] => []
  | o :: rest => iterEvents name o ++ loopEvents name rest

/-! ## shutdown (main.go, lines 240-255) -/

/-- The call `proxy.cancel()` on the proxy behind a pointer. -/
def cancelProxy (heap : List Proxy) (ref : Nat) : List Proxy :=
  match heap[ref]? with
  | some p => heap.set ref { p with canceled := true }
  | none => heap

/-- Lines 241-250 of `shutdown`: cancel the manager's context, then every registered proxy's.
Calling a `CancelFunc` again does nothing, so each call just sets the flag. -/
def shutdownCancel (w : World) : World :=
  { w with
    pm := { w.pm with canceled := true }
    heap := w.pm.proxies.foldl (fun heap e => cancelProxy heap e.2) w.heap
    logs := w.logs ++ ["Shutting down proxy manager..."]
      ++ w.pm.proxies.map (fun e => "Closing proxy: " ++ e.1) }

/-- The function `shutdown` called with no other goroutine taking a step meanwhile:
`pm.wg.Wait()` (line 252) returns when the counter is zero, and `none` says that the call
stays blocked there. -/
def shutdown (w : World) : Option World :=
  let w1 := shutdownCancel w
  if w1.pm.wg = 0 then
    some { w1 with logs := w1.logs ++ ["Proxy manager shutdown complete"] }
  else none

/-! ## Goroutines: the program as a transition system -/

/-- An atomic step of the running program. -/
inductive Action
  /-- The call `manager.startProxies()` of `main` (line 69) on the given network. -/
  | startProxies (net : ListenOracle)
  /-- Goroutine `g`, an accept loop, runs the `select` of line 164. -/
  | loopSelect (g : Nat)
  /-- The `Accept` in which goroutine `g` is blocked returns: a client has connected, or the
  operating system reports an error. -/
  | acceptReturns (g : Nat) (result : Except String Nat)
  /-- Goroutine `g`, a connection handler, runs its dial loop on the given network. -/
  | connDial (g : Nat) (dial : DialOracle)
  /-- Goroutine `g`, a connection handler, gets past `<-ctx.Done()` (line 237) and returns;
  `copyDone` says whether one of its two copy goroutines has called `cancel`. -/
  | connEnds (g : Nat) (copyDone : Bool)
  /-- The signal arrives and `main` runs lines 87-88 and 241-250, up to `pm.wg.Wait()`. -/
  | shutdownSignal
  /-- The call `pm.wg.Wait()` returns, and with it `shutdown`. -/
  | shutdownReturn

/-- Whether the listener of the proxy behind a pointer has been closed. -/
def listenerClosed (w : World) (ref : Nat) : Bool :=
  match w.heap[ref]? with
  | some p => p.listener.closed
  | none => false

/-- The call `proxy.listener.Close()`. -/
def closeListener (heap : List Proxy) (ref : Nat) : List Proxy :=
  match heap[ref]? with
  | some p => heap.set ref { p with listener := { p.listener with closed := true } }
  | none => heap

/-- The return of `handleProxy` in goroutine `g`: the deferred `proxy.listener.Close()` and
`pm.wg.Done()` (lines 160-161). -/
def loopExit (w : World) (g : Nat) (ref : Nat) : World :=
  { w with
    heap := closeListener w.heap ref
    pm := { w.pm with wg := w.pm.wg - 1 }
    goroutines := w.goroutines.set g (Goroutine.handleProxy ref LoopPC.returned) }

/-- The effect on the program state of an event of the accept loop of the proxy `ref`. -/
def applyLoopEvent (ref : Nat) (w : World) : Event → World
  | Event.goHandleConnection c =>
    { w with goroutines := w.goroutines ++ [Goroutine.handleConnection ref c ConnPC.dialing] }
  | Event.log msg => { w with logs := w.logs ++ [msg] }
  | _ => w

/-- Whether the process has exited: `log.Fatalf` at line 70, or `main` returning after
`shutdown`. -/
def exited (w : World) : Bool :=
  w.main = MainPC.fatal || w.main = MainPC.done

/-- The name of the proxy behind a pointer. -/
def proxyName (w : World) (ref : Nat) : String :=
  match w.heap[ref]? with
  | some p => p.config.Name
  | none => ""

/-- The state after an action, or `none` when the action cannot happen in this state. -/
def step (a : Action) (w : World) : Option World :=
  if exited w then none else
  match a with
  | Action.startProxies net =>
    if w.main = MainPC.starting then
      match startProxies net w with
      | (none, w1) => some { w1 with main := MainPC.serving }
      | (some _, w1) => some { w1 with main := MainPC.fatal }
    else none
  | Action.loopSelect g =>
    match w.goroutines[g]? with
    | some (Goroutine.handleProxy ref LoopPC.select) =>
      (match selectStep (ctxDone w ref) with
       | LoopPC.returned => some (loopExit w g ref)
       | pc => some { w with goroutines := w.goroutines.set g (Goroutine.handleProxy ref pc) })
    | _ => none
  | Action.acceptReturns g result =>
    match w.goroutines[g]? with
    | some (Goroutine.handleProxy ref LoopPC.accept) =>
      if listenerClosed w ref && result.toBool then none
      else
        (match acceptStep (proxyName w ref) result (ctxDone w ref) with
         | (LoopPC.returned, _) => some (loopExit w g ref)
         | (pc, evs) =>
           some (evs.foldl (applyLoopEvent ref)
             { w with goroutines := w.goroutines.set g (Goroutine.handleProxy ref pc) }))
    | _ => none
  | Action.connDial g dial =>
    match w.goroutines[g]? with
    | some (Goroutine.handleConnection ref clientConn ConnPC.dialing) =>
      (match w.heap[ref]? with
       | some proxy =>
         let st := dialWithRetry dial (remoteAddrOf proxy.config)
         (match st.err with
          | some _ =>
            some { w with
              goroutines :=
                w.goroutines.set g (Goroutine.handleConnection ref clientConn ConnPC.returned)
              closedConns := w.closedConns ++ [clientConn] }
          | none =>
            (match st.serverConn with
             | some serverConn =>
               some { w with
                 goroutines := w.goroutines.set g
                   (Goroutine.handleConnection ref clientConn (ConnPC.relaying serverConn)) }
             | none => none))
       | none => none)
    | _ => none
  | Action.connEnds g copyDone =>
    match w.goroutines[g]? with
    | some (Goroutine.handleConnection ref clientConn (ConnPC.relaying serverConn)) =>
      if copyDone || ctxDone w ref then
        some { w with
          goroutines :=
            w.goroutines.set g (Goroutine.handleConnection ref clientConn ConnPC.returned)
          closedConns := w.closedConns ++ [serverConn, clientConn] }
      else none
    | _ => none
  | Action.shutdownSignal =>
    if w.main = MainPC.serving then
      some { shutdownCancel { w with logs := w.logs ++ ["Shutting down..."] } with
        main := MainPC.waiting }
    else none
  | Action.shutdownReturn =>
    if w.main = MainPC.waiting ∧ w.pm.wg = 0 then
      some { w with
        main := MainPC.done
        logs := w.logs ++ ["Proxy manager shutdown complete"] }
    else none

/-- The state after a sequence of actions, or `none` when one of them cannot happen. -/
def run : List Action → World → Option World
  | [], w => some w
  | a :: rest, w =>
    match step a w with
    | some w1 => run rest w1
    | none => none

/-- The states the program can reach from a configuration. -/
def Reachable (config : Config) (w : World) : Prop :=
  ∃ actions : List Action, run actions (newWorld config) = some w

/-- Whether a goroutine has not returned yet. -/
def Goroutine.running : Goroutine → Bool
  | Goroutine.handleProxy _ pc => pc ≠ LoopPC.returned
  | Goroutine.handleConnection _ _ pc => pc ≠ ConnPC.returned

/-- Whether a goroutine is an accept loop. -/
def Goroutine.isLoop : Goroutine → Bool
  | Goroutine.handleProxy _ _ => true
  | Goroutine.handleConnection _ _ _ => false

/-- The goroutines spawned by the manager that have not returned yet. -/
def runningTasks (w : World) : List Goroutine :=
  w.goroutines.filter Goroutine.running

/-- The property that every spawned task that has not returned is counted in the wait group. -/
def AllTracked (w : World) : Prop :=
  (runningTasks w).length ≤ w.pm.wg

/-- Whether the proxy behind a pointer, if there is one, has had its own cancel function
called. -/
def IsCanceled (heap : List Proxy) (ref : Nat) : Prop :=
  ∀ p, heap[ref]? = some p → p.canceled = true

/-- The postcondition of the cancel phase of `shutdown`: the manager's scope and the scope of
every registered proxy are canceled. -/
def AllCanceled (w : World) : Prop :=
  w.pm.canceled = true ∧ ∀ (n : String) (ref : Nat), (n, ref) ∈ w.pm.proxies → IsCanceled w.heap ref

instance AllTracked.decidable (w : World) : Decidable (AllTracked w) :=
  Nat.decLe _ _

instance IsCanceled.decidable (heap : List Proxy) (ref : Nat) :
    Decidable (IsCanceled heap ref) :=
  match h : heap[ref]? with
  | some p =>
    if hc : p.canceled = true then
      isTrue (fun q hq => by rw [h] at hq; cases hq; exact hc)
    else isFalse (fun H => hc (H p h))
  | none => isTrue (fun q hq => by rw [h] at hq; cases hq)

instance AllCanceled.decidable (w : World) : Decidable (AllCanceled w) :=
  decidable_of_iff
    (w.pm.canceled = true ∧ ∀ e ∈ w.pm.proxies, IsCanceled w.heap e.2)
    ⟨fun h => ⟨h.1, fun n ref hm => h.2 (n, ref) hm⟩,
      fun h => ⟨h.1, fun e he => h.2 e.1 e.2 he⟩⟩

/-- The number of accept loops that have not returned yet. -/
def runningLoops (w : World) : Nat :=
  w.goroutines.countP (fun g => g.isLoop && g.running)

/-- What stays the same in a proxy for its whole life: its definition and the address its
listener was bound to. -/
def Proxy.fixedPart (p : Proxy) : ProxyConfig × String :=
  (p.config, p.listener.addr)

/-! ## Sample inputs -/

/-- A remote that refuses the first two dial attempts and accepts the third. -/
def dialThirdOk : DialOracle :=
  fun attempt _ => if attempt = 3 then .ok 7 else .error "connection refused"

/-- A remote that refuses every dial attempt. -/
def dialNever : DialOracle :=
  fun _ _ => .error "connection refused"


/-- A configuration as the loader may deliver it before `setDefaults`: the first definition
has no local host, the second is disabled. -/
def sampleConfig : Config :=
  { Proxies :=
      [ { Name := "a", LocalHost := "", LocalPort := 8080, RemoteHost := "db", RemotePort := 5432,
          Enabled := true },
        { Name := "b", LocalHost := "127.0.0.1", LocalPort := 8081, RemoteHost := "web",
          RemotePort := 80, Enabled := false } ] }

/-- The definition named `a` of `threeConfig`. -/
def defA : ProxyConfig :=
  { Name := "a", LocalHost := "0.0.0.0", LocalPort := 8080, RemoteHost := "db",
    RemotePort := 5432, Enabled := true }

/-- The definition named `b` of `threeConfig`, disabled. -/
def defB : ProxyConfig :=
  { Name := "b", LocalHost := "127.0.0.1", LocalPort := 8081, RemoteHost := "web",
    RemotePort := 80, Enabled := false }

/-- The definition named `c` of `threeConfig`. -/
def defC : ProxyConfig :=
  { Name := "c", LocalHost := "0.0.0.0", LocalPort := 9090, RemoteHost := "cache",
    RemotePort := 6379, Enabled := true }

/-- A configuration with two enabled definitions around a disabled one. -/
def threeConfig : Config :=
  { Proxies := [defA, defB, defC] }

/-- A network on which every listen succeeds. -/
def listenAlways : ListenOracle :=
  fun _ _ => none

/-- A network on which the second listen call fails. -/
def listenSecondFails : ListenOracle :=
  fun k _ => if k = 1 then some "address already in use" else none

/-- A remote that accepts the first dial attempt. -/
def dialOk : DialOracle :=
  fun _ _ => .ok 9

/-- A configuration with the single enabled definition `defA`. -/
def oneConfig : Config :=
  { Proxies := [defA] }

/-- Observations of an accept loop: a connection, an accept error with the scope live, then an
accept error with the scope canceled. -/
def sampleObs : List AcceptObs :=
  [ { doneBefore := false, result := .ok 5, doneAfter := false },
    { doneBefore := false, result := .error "too many open files", doneAfter := false },
    { doneBefore := false, result := .error "use of closed network connection",
      doneAfter := true } ]

/-- A run in which the signal arrives right after the accept loop has spawned a handler: the
loop sees the cancellation at its next `select` and returns, and `shutdown` returns. -/
def untrackedRun : List Action :=
  [ Action.startProxies listenAlways,
    Action.loopSelect 0,
    Action.acceptReturns 0 (.ok 5),
    Action.shutdownSignal,
    Action.loopSelect 0,
    Action.shutdownReturn ]

/-- The state at the end of `untrackedRun`. -/
def untrackedWorld : World :=
  { pm := { config := oneConfig, proxies := [("a", 0)], canceled := true, wg := 0 }
    heap :=
      [ { config := defA
          listener := { addr := "0.0.0.0:8080", closed := true }
          active := true
          canceled := true } ]
    goroutines :=
      [ Goroutine.handleProxy 0 LoopPC.returned,
        Goroutine.handleConnection 0 (Conn.client 5) ConnPC.dialing ]
    listens := ["0.0.0.0:8080"]
    closedConns := []
    main := MainPC.done
    logs :=
      [ "Started proxy a: 0.0.0.0:8080 -> db:5432", "Shutting down...",
        "Shutting down proxy manager...", "Closing proxy: a",
        "Proxy manager shutdown complete" ] }

/-- A run in which the signal arrives while one connection is being relayed and the accept
loop is blocked in `Accept`: the handler sees the cancellation and returns. -/
def stuckRun : List Action :=
  [ Action.startProxies listenAlways,
    Action.loopSelect 0,
    Action.acceptReturns 0 (.ok 5),
    Action.loopSelect 0,
    Action.connDial 1 dialOk,
    Action.shutdownSignal,
    Action.connEnds 1 false ]

/-- The state at the end of `stuckRun`. -/
def stuckWorld : World :=
  { pm := { config := oneConfig, proxies := [("a", 0)], canceled := true, wg := 1 }
    heap :=
      [ { config := defA
          listener := { addr := "0.0.0.0:8080", closed := false }
          active := true
          canceled := true } ]
    goroutines :=
      [ Goroutine.handleProxy 0 LoopPC.accept,
        Goroutine.handleConnection 0 (Conn.client 5) ConnPC.returned ]
    listens := ["0.0.0.0:8080"]
    closedConns := [Conn.server 9, Conn.client 5]
    main := MainPC.waiting
    logs :=
      [ "Started proxy a: 0.0.0.0:8080 -> db:5432", "Shutting down...",
        "Shutting down proxy manager...", "Closing proxy: a" ] }

/-- A network on which only the remote `cache:6379` answers. -/
def dialCacheOnly : DialOracle :=
  fun _ addr => if addr = "cache:6379" then .ok 9 else .error "connection refused"

/-- The program started on `threeConfig`, with the accept loop of the proxy `c` blocked in
`Accept`. -/
def acceptingWorld : World :=
  (run [Action.startProxies listenAlways, Action.loopSelect 1] (newWorld threeConfig)).getD
    (newWorld threeConfig)

/-- The state after a client connection has been accepted by that loop. -/
def dialingWorld : World :=
  (step (Action.acceptReturns 1 (.ok 5)) acceptingWorld).getD acceptingWorld

/-- The state after the handler of that connection has run its dial loop on a network where
only `cache:6379` answers. -/
def relayingWorld : World :=
  (step (Action.connDial 2 dialCacheOnly) dialingWorld).getD dialingWorld

/-! # Theorems -/

/-! ## setDefaults -/

theorem set_self_eq {α : Type} (l : List α) (i : Nat) (h : i < l.length) :
    l.set i (l.get ⟨i, h⟩) = l := by
  apply List.ext_getElem
  · simp
  · intro j h1 h2
    rw [List.getElem_set]
    split
    · next hij => subst hij; rfl
    · rfl

theorem setDefaultsStep_eq (ps : List ProxyConfig) (i : Nat) (h : i < ps.length) :
    setDefaultsStep ps i = ps.set i (defaultLocalHost (ps.get ⟨i, h⟩)) := by
  unfold setDefaultsStep defaultLocalHost
  have hget : ps[i]? = some (ps.get ⟨i, h⟩) := by simp [List.getElem?_eq_getElem h]
  rw [hget]
  by_cases hh : (ps.get ⟨i, h⟩).LocalHost = ""
  · simp only [hh, if_true]
  · simp only [hh, if_false]
    exact (set_self_eq ps i h).symm

theorem setDefaults_loop (ps : List ProxyConfig) (n : Nat) (hn : n ≤ ps.length) :
    (List.range n).foldl setDefaultsStep ps
      = (ps.take n).map defaultLocalHost ++ ps.drop n := by
  induction n with
  | zero => simp
  | succ n ih =>
    have hlt : n < ps.length := hn
    rw [List.range_succ, List.foldl_append, ih (Nat.le_of_lt hlt)]
    simp only [List.foldl_cons, List.foldl_nil]
    have hlen : n < ((ps.take n).map defaultLocalHost ++ ps.drop n).length := by
      simp; omega
    rw [setDefaultsStep_eq _ n hlen]
    apply List.ext_getElem
    · simp; omega
    · intro i h1 h2
      simp only [List.length_set, List.length_append, List.length_map, List.length_take,
        List.length_drop] at h1 h2
      rw [List.getElem_set]
      by_cases hi : n = i
      · subst hi
        simp [List.getElem_append, hlt, Nat.min_eq_left (Nat.le_of_lt hlt)]
      · simp only [hi, if_false]
        rcases Nat.lt_or_gt_of_ne hi with hlt2 | hgt
        · have : ¬ i < n := by omega
          simp [List.getElem_append, this, Nat.min_eq_left (Nat.le_of_lt hlt)]
          have : ¬ i < n + 1 := by omega
          simp [this, Nat.min_eq_left hn]
          congr 1; omega
        · have h3 : i < n := hgt
          have h4 : i < n + 1 := by omega
          simp [List.getElem_append, h3, h4, Nat.min_eq_left (Nat.le_of_lt hlt),
            Nat.min_eq_left hn]

theorem defaultLocalHost_of_ne (p : ProxyConfig) (h : p.LocalHost ≠ "") :
    defaultLocalHost p = p := by
  unfold defaultLocalHost
  simp only [h, if_false]

theorem setDefaults_eq_map (config : Config) :
    (setDefaults config).Proxies = config.Proxies.map defaultLocalHost := by
  unfold setDefaults
  simp only
  rw [setDefaults_loop _ _ (Nat.le_refl _)]
  simp

/-- C8: `setDefaults` keeps the number and the order of the definitions; the definition at every
index equals its input except that an empty `LocalHost` becomes `"0.0.0.0"` (a non-empty
`LocalHost`, `Name`, `LocalPort`, `RemoteHost`, `RemotePort` and `Enabled` are unchanged);
afterwards no definition has an empty `LocalHost`, and a second `setDefaults` changes nothing. -/
theorem setDefaults_spec (config : Config) :
    (setDefaults config).Proxies.length = config.Proxies.length ∧
    (∀ (i : Nat) (p : ProxyConfig), config.Proxies[i]? = some p →
      ∃ q, (setDefaults config).Proxies[i]? = some q ∧
        q.Name = p.Name ∧ q.LocalPort = p.LocalPort ∧ q.RemoteHost = p.RemoteHost ∧
        q.RemotePort = p.RemotePort ∧ q.Enabled = p.Enabled ∧
        (p.LocalHost = "" → q.LocalHost = "0.0.0.0") ∧
        (p.LocalHost ≠ "" → q = p)) ∧
    (∀ q ∈ (setDefaults config).Proxies, q.LocalHost ≠ "") ∧
    setDefaults (setDefaults config) = setDefaults config := by
  have hmap := setDefaults_eq_map config
  have hfix : ∀ p : ProxyConfig, (defaultLocalHost p).LocalHost ≠ "" := by
    intro p
    unfold defaultLocalHost
    by_cases hp : p.LocalHost = ""
    · simp only [hp, if_true]; decide
    · simp only [hp, if_false]; exact hp
  refine ⟨by rw [hmap]; simp, ?_, ?_, ?_⟩
  · intro i p hp
    refine ⟨defaultLocalHost p, by rw [hmap]; simp [hp], ?_⟩
    unfold defaultLocalHost
    by_cases hh : p.LocalHost = ""
    · simp [hh]
    · simp [hh]
  · intro q hq
    rw [hmap, List.mem_map] at hq
    obtain ⟨p, _, rfl⟩ := hq
    exact hfix p
  · have h2 := setDefaults_eq_map (setDefaults config)
    have : (setDefaults (setDefaults config)).Proxies = (setDefaults config).Proxies := by
      rw [h2, hmap, List.map_map]
      apply List.map_congr_left
      intro p _
      exact defaultLocalHost_of_ne _ (hfix p)
    cases h : setDefaults (setDefaults config) with
    | mk a =>
      cases h3 : setDefaults config with
      | mk b =>
        rw [h, h3] at this
        simpa using this

/-- C8 at `sampleConfig`: the first definition gets the wildcard address. -/
theorem setDefaults_spec_witness :
    ∃ q, (setDefaults sampleConfig).Proxies[0]? = some q ∧ q.Name = "a" ∧ q.LocalPort = 8080 ∧
      q.RemoteHost = "db" ∧ q.RemotePort = 5432 ∧ q.Enabled = true ∧
      ("" = "" → q.LocalHost = "0.0.0.0") ∧
      (("" : String) ≠ "" → q = sampleConfig.Proxies.get ⟨0, by decide⟩) :=
  (setDefaults_spec sampleConfig).2.1 0 (sampleConfig.Proxies.get ⟨0, by decide⟩) rfl

/-! ## startProxies: the loop, field by field -/

theorem listenSuccesses_le (net : ListenOracle) (base : Nat) (cs : List ProxyConfig) :
    listenSuccesses net base cs ≤ cs.length := by
  induction cs generalizing base with
  | nil => simp [listenSuccesses]
  | cons c cs ih =>
    unfold listenSuccesses
    split
    · have := ih (base + 1); simp; omega
    · simp

/-- The state reached by the loop of `startProxies`, field by field, in terms of the number of
leading enabled definitions whose listen succeeds. -/
theorem startProxiesLoop_fields (net : ListenOracle) (defs : List ProxyConfig) (w : World) :
    let r := startProxiesLoop net defs w
    let ens := defs.filter (fun c => c.Enabled)
    let j := listenSuccesses net w.listens.length ens
    (r.1 = none ↔ j = ens.length) ∧
    r.2.listens = w.listens ++ (ens.take (j + 1)).map localAddrOf ∧
    r.2.heap = w.heap ++ (ens.take j).map proxyOf ∧
    r.2.pm.wg = w.pm.wg + j ∧
    r.2.pm.canceled = w.pm.canceled ∧
    r.2.pm.config = w.pm.config ∧
    r.2.closedConns = w.closedConns ∧
    r.2.main = w.main ∧
    r.2.goroutines = w.goroutines ++
      (List.range j).map (fun i => Goroutine.handleProxy (w.heap.length + i) LoopPC.select) ∧
    r.2.pm.proxies = registryAfter w.heap.length w.pm.proxies (ens.take j) := by
  induction defs generalizing w with
  | nil => simp [startProxiesLoop, listenSuccesses, registryAfter]
  | cons c rest ih =>
    by_cases hen : c.Enabled = true
    · have hfilter : (c :: rest).filter (fun c => c.Enabled) = c :: rest.filter (fun c => c.Enabled) := by
        simp [List.filter_cons, hen]
      simp only [hfilter]
      cases hnet : net w.listens.length (localAddrOf c) with
      | some err =>
        have hj : listenSuccesses net w.listens.length (c :: rest.filter (fun c => c.Enabled)) = 0 := by
          simp [listenSuccesses, hnet]
        have hnet2 : net w.listens.length (hostPort c.LocalHost c.LocalPort) = some err := hnet
        simp [hj, startProxiesLoop, hen, startProxy, hnet2, registryAfter, localAddrOf]
      | none =>
        have hnet2 : net w.listens.length (hostPort c.LocalHost c.LocalPort) = none := hnet
        have hj : listenSuccesses net w.listens.length (c :: rest.filter (fun c => c.Enabled))
            = listenSuccesses net (w.listens.length + 1) (rest.filter (fun c => c.Enabled)) + 1 := by
          simp [listenSuccesses, hnet]
        have hstep : startProxiesLoop net (c :: rest) w
            = startProxiesLoop net rest (startProxy net c w).2 := by
          simp [startProxiesLoop, hen, startProxy, hnet2]
        have ih2 := ih (startProxy net c w).2
        have hw1 : (startProxy net c w).2.listens.length = w.listens.length + 1 := by
          simp [startProxy, hnet2]
        simp only [hw1] at ih2
        simp only [hj, hstep]
        obtain ⟨h1, h2, h3, h4, h5, h6, h7, h8, h9, h10⟩ := ih2
        refine ⟨?_, ?_, ?_, ?_, ?_, ?_, ?_, ?_, ?_, ?_⟩
        · rw [h1]; simp
        · rw [h2]; simp [startProxy, hnet2, localAddrOf]
        · rw [h3]; simp [startProxy, hnet2, proxyOf, localAddrOf]
        · rw [h4]; simp [startProxy, hnet2]; omega
        · rw [h5]; simp [startProxy, hnet2]
        · rw [h6]; simp [startProxy, hnet2]
        · rw [h7]; simp [startProxy, hnet2]
        · rw [h8]; simp [startProxy, hnet2]
        · rw [h9]
          simp only [startProxy, hnet2, List.length_append, List.length_singleton]
          rw [List.range_succ_eq_map]
          simp [Function.comp_def, Nat.add_assoc, Nat.add_comm 1]
        · rw [h10]; simp [startProxy, hnet2, registryAfter]
    · have hen2 : c.Enabled = false := by simpa using hen
      have hfilter : (c :: rest).filter (fun c => c.Enabled) = rest.filter (fun c => c.Enabled) := by
        simp [List.filter_cons, hen2]
      simp only [hfilter]
      have hstep : startProxiesLoop net (c :: rest) w = startProxiesLoop net rest
          { w with logs := w.logs ++ ["Skipping disabled proxy: " ++ c.Name] } := by
        simp [startProxiesLoop, hen2]
      rw [hstep]
      exact ih _

theorem listenSuccesses_ok (net : ListenOracle) (base : Nat) (cs : List ProxyConfig) :
    ∀ (i : Nat) (c : ProxyConfig), i < listenSuccesses net base cs → cs[i]? = some c →
      net (base + i) (localAddrOf c) = none := by
  induction cs generalizing base with
  | nil => intro i c hi; simp [listenSuccesses] at hi
  | cons d ds ih =>
    intro i c hi hc
    unfold listenSuccesses at hi
    split at hi
    · next hnet =>
      cases i with
      | zero =>
        simp at hc
        subst hc
        simpa using hnet
      | succ i =>
        simp at hc
        have := ih (base + 1) i c (by omega) hc
        rw [← this]
        congr 1
        omega
    · omega

theorem listenSuccesses_fail (net : ListenOracle) (base : Nat) (cs : List ProxyConfig)
    (h : listenSuccesses net base cs < cs.length) :
    ∃ c e, cs[listenSuccesses net base cs]? = some c ∧
      net (base + listenSuccesses net base cs) (localAddrOf c) = some e := by
  induction cs generalizing base with
  | nil => simp at h
  | cons d ds ih =>
    unfold listenSuccesses at h ⊢
    split
    · next hnet =>
      rw [hnet] at h
      simp only [List.length_cons] at h
      obtain ⟨c, e, hc, he⟩ := ih (base + 1) (by omega)
      refine ⟨c, e, by simpa using hc, ?_⟩
      rw [← he]
      congr 1
      omega
    · next e hnet =>
      exact ⟨d, e, by simp, by simpa using hnet⟩

theorem listenSuccesses_eq_of_first_fail (net : ListenOracle) (base : Nat)
    (cs : List ProxyConfig) (k : Nat) (c : ProxyConfig) (e : String)
    (hc : cs[k]? = some c)
    (hbefore : ∀ (i : Nat) (d : ProxyConfig), i < k → cs[i]? = some d →
      net (base + i) (localAddrOf d) = none)
    (hfail : net (base + k) (localAddrOf c) = some e) :
    listenSuccesses net base cs = k := by
  have hlen : k < cs.length := by
    rcases Nat.lt_or_ge k cs.length with h | h
    · exact h
    · rw [List.getElem?_eq_none h] at hc; cases hc
  rcases Nat.lt_trichotomy (listenSuccesses net base cs) k with hlt | heq | hgt
  · have hj : listenSuccesses net base cs < cs.length := by omega
    obtain ⟨d, e2, hd, he2⟩ := listenSuccesses_fail net base cs hj
    have := hbefore _ d hlt hd
    rw [this] at he2
    cases he2
  · exact heq
  · have := listenSuccesses_ok net base cs k c hgt hc
    rw [this] at hfail
    cases hfail

theorem listenSuccesses_eq_length (net : ListenOracle) (base : Nat) (cs : List ProxyConfig)
    (hall : ∀ (i : Nat) (d : ProxyConfig), cs[i]? = some d →
      net (base + i) (localAddrOf d) = none) :
    listenSuccesses net base cs = cs.length := by
  rcases Nat.lt_or_ge (listenSuccesses net base cs) cs.length with h | h
  · obtain ⟨d, e, hd, he⟩ := listenSuccesses_fail net base cs h
    rw [hall _ d hd] at he
    cases he
  · exact Nat.le_antisymm (listenSuccesses_le net base cs) h

/-- The fields lemma at the state `main` starts from. -/
theorem startProxies_fields (net : ListenOracle) (config : Config) :
    let r := startProxies net (newWorld config)
    let ens := enabledDefs config
    let j := listenSuccesses net 0 ens
    (r.1 = none ↔ j = ens.length) ∧
    r.2.listens = (ens.take (j + 1)).map localAddrOf ∧
    r.2.heap = (ens.take j).map proxyOf ∧
    r.2.pm.wg = j ∧
    r.2.pm.canceled = false ∧
    r.2.goroutines = (List.range j).map (fun i => Goroutine.handleProxy i LoopPC.select) ∧
    r.2.pm.proxies = registryAfter 0 [] (ens.take j) := by
  have h := startProxiesLoop_fields net config.Proxies (newWorld config)
  simp only [newWorld, List.length_nil, List.nil_append, Nat.zero_add] at h
  obtain ⟨h1, h2, h3, h4, h5, _, _, _, h9, h10⟩ := h
  exact ⟨h1, h2, h3, h4, h5, h9, h10⟩

theorem mem_enabledDefs (config : Config) (c : ProxyConfig) (h : c ∈ enabledDefs config) :
    c ∈ config.Proxies ∧ c.Enabled = true := by
  unfold enabledDefs at h
  rw [List.mem_filter] at h
  exact ⟨h.1, by simpa using h.2⟩

theorem getElem?_take_some {α : Type} (l : List α) (j i : Nat) (a : α)
    (h : (l.take j)[i]? = some a) : i < j ∧ l[i]? = some a := by
  rw [List.getElem?_take] at h
  split at h
  · next hlt => exact ⟨hlt, h⟩
  · cases h

theorem filter_enabled_take (config : Config) (k : Nat) :
    enabledDefs { Proxies := (enabledDefs config).take k } = (enabledDefs config).take k := by
  unfold enabledDefs
  simp only
  apply List.filter_eq_self.mpr
  intro c hc
  have := List.mem_of_mem_take hc
  rw [List.mem_filter] at this
  exact this.2

/-! ## startProxies: the registry -/

theorem mem_mapSet (m : List (String × Nat)) (k : String) (v : Nat) (n : String) (r : Nat) :
    (n, r) ∈ mapSet m k v ↔ (n = k ∧ r = v) ∨ ((n, r) ∈ m ∧ n ≠ k) := by
  unfold mapSet
  simp [List.mem_filter]

theorem mem_mapKeys_mapSet (m : List (String × Nat)) (k : String) (v : Nat) (n : String) :
    n ∈ mapKeys (mapSet m k v) ↔ n = k ∨ n ∈ mapKeys m := by
  unfold mapKeys mapSet
  simp only [List.map_cons, List.mem_cons, List.mem_map, List.mem_filter]
  constructor
  · rintro (h | ⟨e, ⟨he, _⟩, rfl⟩)
    · exact Or.inl h
    · exact Or.inr ⟨e, he, rfl⟩
  · rintro (h | ⟨e, he, rfl⟩)
    · exact Or.inl h
    · by_cases hk : e.1 = k
      · exact Or.inl hk
      · exact Or.inr ⟨e, ⟨he, by simpa using hk⟩, rfl⟩

theorem nodup_mapKeys_mapSet (m : List (String × Nat)) (k : String) (v : Nat)
    (h : (mapKeys m).Nodup) : (mapKeys (mapSet m k v)).Nodup := by
  unfold mapKeys mapSet at *
  rw [List.map_cons, List.nodup_cons]
  constructor
  · simp only [List.mem_map, List.mem_filter]
    rintro ⟨e, ⟨_, he⟩, hek⟩
    simp at he
    exact he hek
  · exact (List.Nodup.sublist (List.Sublist.map _ (List.filter_sublist _)) h)

theorem mem_mapKeys_registryAfter (base : Nat) (m : List (String × Nat))
    (cs : List ProxyConfig) (n : String) :
    n ∈ mapKeys (registryAfter base m cs) ↔ n ∈ mapKeys m ∨ n ∈ cs.map (fun c => c.Name) := by
  induction cs generalizing base m with
  | nil => simp [registryAfter]
  | cons c cs ih =>
    rw [registryAfter, ih, mem_mapKeys_mapSet]
    simp only [List.map_cons, List.mem_cons]
    tauto

theorem nodup_mapKeys_registryAfter (base : Nat) (m : List (String × Nat))
    (cs : List ProxyConfig) (h : (mapKeys m).Nodup) :
    (mapKeys (registryAfter base m cs)).Nodup := by
  induction cs generalizing base m with
  | nil => simpa [registryAfter] using h
  | cons c cs ih =>
    rw [registryAfter]
    exact ih _ _ (nodup_mapKeys_mapSet m c.Name base h)

theorem mem_registryAfter (base : Nat) (m : List (String × Nat)) (cs : List ProxyConfig)
    (n : String) (r : Nat) (h : (n, r) ∈ registryAfter base m cs) :
    (n, r) ∈ m ∨ ∃ (i : Nat) (c : ProxyConfig), cs[i]? = some c ∧ c.Name = n ∧ r = base + i := by
  induction cs generalizing base m with
  | nil => exact Or.inl (by simpa [registryAfter] using h)
  | cons c cs ih =>
    rw [registryAfter] at h
    rcases ih _ _ h with h1 | ⟨i, d, hd, hn, hr⟩
    · rw [mem_mapSet] at h1
      rcases h1 with ⟨hn, hr⟩ | ⟨hm, _⟩
      · exact Or.inr ⟨0, c, by simp, hn.symm, by simpa using hr⟩
      · exact Or.inl hm
    · exact Or.inr ⟨i + 1, d, by simpa using hd, hn, by omega⟩

theorem mem_registryAfter_of_mem (base : Nat) (m : List (String × Nat))
    (cs : List ProxyConfig) (n : String) (r : Nat) (h : (n, r) ∈ m)
    (hn : n ∉ cs.map (fun c => c.Name)) : (n, r) ∈ registryAfter base m cs := by
  induction cs generalizing base m with
  | nil => simpa [registryAfter] using h
  | cons c cs ih =>
    rw [registryAfter]
    simp only [List.map_cons, List.mem_cons, not_or] at hn
    apply ih
    · rw [mem_mapSet]
      exact Or.inr ⟨h, hn.1⟩
    · exact hn.2

theorem registryAfter_mem_of_nodup (base : Nat) (m : List (String × Nat))
    (cs : List ProxyConfig) (hnd : (cs.map (fun c => c.Name)).Nodup)
    (i : Nat) (c : ProxyConfig) (hc : cs[i]? = some c) :
    (c.Name, base + i) ∈ registryAfter base m cs := by
  induction cs generalizing base m i with
  | nil => simp at hc
  | cons d ds ih =>
    rw [registryAfter]
    rw [List.map_cons, List.nodup_cons] at hnd
    cases i with
    | zero =>
      simp at hc
      subst hc
      apply mem_registryAfter_of_mem
      · rw [mem_mapSet]; exact Or.inl ⟨rfl, rfl⟩
      · exact hnd.1
    | succ i =>
      simp at hc
      have := ih (base + 1) (mapSet m d.Name base) hnd.2 i hc
      have heq : base + 1 + i = base + (i + 1) := by omega
      rw [heq] at this
      exact this

/-! ## startProxies: disabled definitions and listen failures -/

/-- C1: `startProxies`, run from the manager that `main` builds, attempts to listen on a
leading segment of the addresses `localHost:localPort` of the enabled definitions in
configuration order; every registry entry points to the proxy of an enabled definition of the
configuration; and when the listen of every enabled definition succeeds, the attempted
addresses are exactly those of the enabled definitions, no error is returned, the registry's
keys are the names of the enabled definitions, and with unique names they are exactly those
names, each once. -/
theorem startProxies_skips_disabled (net : ListenOracle) (config : Config) :
    let r := startProxies net (newWorld config)
    r.2.listens <+: (enabledDefs config).map localAddrOf ∧
    (∀ (n : String) (ref : Nat), (n, ref) ∈ r.2.pm.proxies →
      ∃ p, r.2.heap[ref]? = some p ∧ p.config.Enabled = true ∧
        p.config ∈ config.Proxies ∧ p.config.Name = n) ∧
    ((∀ (k : Nat) (c : ProxyConfig), (enabledDefs config)[k]? = some c →
        net k (localAddrOf c) = none) →
      r.2.listens = (enabledDefs config).map localAddrOf ∧
      r.1 = none ∧
      (∀ n, n ∈ mapKeys r.2.pm.proxies ↔ n ∈ (enabledDefs config).map (fun c => c.Name)) ∧
      (((enabledDefs config).map (fun c => c.Name)).Nodup →
        (mapKeys r.2.pm.proxies).Perm ((enabledDefs config).map (fun c => c.Name)))) := by
  intro r
  obtain ⟨h1, h2, h3, _, _, _, h7⟩ := startProxies_fields net config
  refine ⟨?_, ?_, ?_⟩
  · show r.2.listens <+: _
    rw [h2]
    exact List.IsPrefix.map _ (List.take_prefix _ _)
  · intro n ref hmem
    have hmem2 : (n, ref) ∈ (startProxies net (newWorld config)).2.pm.proxies := hmem
    rw [h7] at hmem2
    rcases mem_registryAfter _ _ _ _ _ hmem2 with h | ⟨i, c, hc, hn, hr⟩
    · cases h
    · have hi := getElem?_take_some _ _ _ _ hc
      have hcmem : c ∈ enabledDefs config := List.getElem?_mem hi.2
      have hce := mem_enabledDefs config c hcmem
      refine ⟨proxyOf c, ?_, hce.2, hce.1, hn⟩
      show (startProxies net (newWorld config)).2.heap[ref]? = _
      rw [h3, hr, Nat.zero_add, List.getElem?_map, hc]
      rfl
  · intro hall
    have hj : listenSuccesses net 0 (enabledDefs config) = (enabledDefs config).length :=
      listenSuccesses_eq_length net 0 _ (by
        intro i d hd
        rw [Nat.zero_add]
        exact hall i d hd)
    rw [hj] at h1 h2 h7
    have hkeys : ∀ n, n ∈ mapKeys r.2.pm.proxies ↔
        n ∈ (enabledDefs config).map (fun c => c.Name) := by
      intro n
      show n ∈ mapKeys (startProxies net (newWorld config)).2.pm.proxies ↔ _
      rw [h7, List.take_length, mem_mapKeys_registryAfter]
      simp [mapKeys]
    refine ⟨?_, ?_, hkeys, ?_⟩
    · show (startProxies net (newWorld config)).2.listens = _
      rw [h2, List.take_of_length_le (Nat.le_succ _)]
    · exact h1.mpr rfl
    · intro hnd
      have hnd2 : (mapKeys r.2.pm.proxies).Nodup := by
        show (mapKeys (startProxies net (newWorld config)).2.pm.proxies).Nodup
        rw [h7]
        exact nodup_mapKeys_registryAfter _ _ _ (by simp [mapKeys])
      exact (List.perm_ext_iff_of_nodup hnd2 hnd).mpr hkeys

/-- C1 at `threeConfig` on a network where every listen succeeds: the two enabled definitions
are listened on in order, no error, and the registry's keys are their names. -/
theorem startProxies_skips_disabled_witness :
    (startProxies listenAlways (newWorld threeConfig)).2.listens
        = (enabledDefs threeConfig).map localAddrOf ∧
      (startProxies listenAlways (newWorld threeConfig)).1 = none ∧
      (mapKeys (startProxies listenAlways (newWorld threeConfig)).2.pm.proxies).Perm
        ((enabledDefs threeConfig).map (fun c => c.Name)) :=
  have h := (startProxies_skips_disabled listenAlways threeConfig).2.2 (fun _ _ _ => rfl)
  ⟨h.1, h.2.1, h.2.2.2 (by decide)⟩

/-- C2: `startProxies` returns an error exactly when the listen of some enabled definition
fails. When the k-th enabled definition is the first whose listen fails, the listens attempted
are those of the enabled definitions up to and including it (none after it); the manager is
left exactly as the earlier iterations made it, that is as a run over the earlier enabled
definitions alone, which returns no error: same registry, proxies, goroutines and wait-group
count, nothing canceled. So every registry entry points to the proxy of an earlier definition
(not to the failing one), and with unique names every earlier enabled definition is registered
under its name with its own, uncanceled proxy. -/
theorem startProxies_error (net : ListenOracle) (config : Config) :
    let r := startProxies net (newWorld config)
    let ens := enabledDefs config
    (r.1 ≠ none ↔ ∃ (k : Nat) (c : ProxyConfig), ens[k]? = some c ∧ net k (localAddrOf c) ≠ none) ∧
    (∀ (k : Nat) (c : ProxyConfig) (e : String), ens[k]? = some c →
      (∀ (i : Nat) (d : ProxyConfig), i < k → ens[i]? = some d → net i (localAddrOf d) = none) →
      net k (localAddrOf c) = some e →
      r.1 ≠ none ∧
      r.2.listens = (ens.take (k + 1)).map localAddrOf ∧
      (let r0 := startProxies net (newWorld { Proxies := ens.take k })
       r0.1 = none ∧ r.2.pm.proxies = r0.2.pm.proxies ∧ r.2.heap = r0.2.heap ∧
       r.2.goroutines = r0.2.goroutines ∧ r.2.pm.wg = r0.2.pm.wg ∧
       r.2.pm.canceled = r0.2.pm.canceled) ∧
      r.2.heap = (ens.take k).map proxyOf ∧
      r.2.pm.wg = k ∧
      r.2.pm.canceled = false ∧
      (∀ ref : Nat, ctxDone r.2 ref = false) ∧
      (∀ (n : String) (ref : Nat), (n, ref) ∈ r.2.pm.proxies →
        ref < k ∧ ∃ d, ens[ref]? = some d ∧ d.Name = n) ∧
      (((ens.take k).map (fun d => d.Name)).Nodup →
        ∀ (i : Nat) (d : ProxyConfig), i < k → ens[i]? = some d →
          (d.Name, i) ∈ r.2.pm.proxies ∧ r.2.heap[i]? = some (proxyOf d))) := by
  intro r ens
  obtain ⟨h1, h2, h3, h4, h5, h6, h7⟩ := startProxies_fields net config
  refine ⟨?_, ?_⟩
  · constructor
    · intro hne
      have hlt : listenSuccesses net 0 ens < ens.length := by
        have hle := listenSuccesses_le net 0 ens
        rcases Nat.lt_or_ge (listenSuccesses net 0 ens) ens.length with h | h
        · exact h
        · exact absurd (h1.mpr (Nat.le_antisymm hle h)) hne
      obtain ⟨c, e, hc, he⟩ := listenSuccesses_fail net 0 ens hlt
      rw [Nat.zero_add] at he
      exact ⟨_, c, hc, by rw [he]; simp⟩
    · rintro ⟨k, c, hc, hne⟩ hnone
      have hj := h1.mp hnone
      have hklt : k < ens.length := by
        rcases Nat.lt_or_ge k ens.length with h | h
        · exact h
        · rw [List.getElem?_eq_none h] at hc; cases hc
      have := listenSuccesses_ok net 0 ens k c (by rw [hj]; exact hklt) hc
      rw [Nat.zero_add] at this
      exact hne this
  · intro k c e hc hbefore hfail
    have hklt : k < ens.length := by
      rcases Nat.lt_or_ge k ens.length with h | h
      · exact h
      · rw [List.getElem?_eq_none h] at hc; cases hc
    have hj : listenSuccesses net 0 ens = k :=
      listenSuccesses_eq_of_first_fail net 0 ens k c e hc
        (by intro i d hi hd; rw [Nat.zero_add]; exact hbefore i d hi hd)
        (by rw [Nat.zero_add]; exact hfail)
    rw [hj] at h1 h2 h3 h4 h6 h7
    -- the run over the earlier enabled definitions alone
    obtain ⟨g1, _, g3, g4, g5, g6, g7⟩ :=
      startProxies_fields net { Proxies := ens.take k }
    have hens0 : enabledDefs { Proxies := ens.take k } = ens.take k :=
      filter_enabled_take config k
    have hj0 : listenSuccesses net 0 (ens.take k) = k := by
      have := listenSuccesses_eq_length net 0 (ens.take k) (by
        intro i d hd
        have h := getElem?_take_some _ _ _ _ hd
        rw [Nat.zero_add]
        exact hbefore i d h.1 h.2)
      rw [this, List.length_take]
      exact Nat.min_eq_left (Nat.le_of_lt hklt)
    rw [hens0, hj0] at g1 g3 g4 g6 g7
    have hlen0 : (ens.take k).length = k := by
      rw [List.length_take]; exact Nat.min_eq_left (Nat.le_of_lt hklt)
    have htt : (ens.take k).take k = ens.take k := by
      rw [List.take_take, Nat.min_self]
    rw [htt] at g3 g7
    have hcanc : ∀ ref : Nat, ctxDone r.2 ref = false := by
      intro ref
      show ctxDone (startProxies net (newWorld config)).2 ref = false
      unfold ctxDone
      rw [h5, h3, List.getElem?_map]
      cases (List.take k ens)[ref]? <;> simp [proxyOf]
    have hreg : ∀ (n : String) (ref : Nat), (n, ref) ∈ r.2.pm.proxies →
        ref < k ∧ ∃ d, ens[ref]? = some d ∧ d.Name = n := by
      intro n ref hmem
      have hmem2 : (n, ref) ∈ (startProxies net (newWorld config)).2.pm.proxies := hmem
      rw [h7] at hmem2
      rcases mem_registryAfter _ _ _ _ _ hmem2 with h | ⟨i, d, hd, hn, hr⟩
      · cases h
      · have hi := getElem?_take_some _ _ _ _ hd
        rw [Nat.zero_add] at hr
        subst hr
        exact ⟨hi.1, d, hi.2, hn⟩
    refine ⟨?_, h2, ⟨g1.mpr hlen0.symm, ?_, ?_, ?_, ?_, ?_⟩, h3, h4, h5, hcanc, hreg, ?_⟩
    · intro hnone
      exact absurd (h1.mp hnone) (Nat.ne_of_lt hklt)
    · exact h7.trans g7.symm
    · exact h3.trans g3.symm
    · exact h6.trans g6.symm
    · exact h4.trans g4.symm
    · exact h5.trans g5.symm
    · intro hnd i d hi hd
      have hd2 : (ens.take k)[i]? = some d := by
        rw [List.getElem?_take, if_pos hi]; exact hd
      constructor
      · show (d.Name, i) ∈ (startProxies net (newWorld config)).2.pm.proxies
        rw [h7]
        have := registryAfter_mem_of_nodup 0 [] (ens.take k) hnd i d hd2
        rw [Nat.zero_add] at this
        exact this
      · show (startProxies net (newWorld config)).2.heap[i]? = _
        rw [h3, List.getElem?_map, hd2]
        rfl

/-- C2 at `threeConfig` on a network where the second listen fails: an error is returned after
two listens, and the proxy of `a` is still registered, alone and uncanceled. -/
theorem startProxies_error_witness :
    (startProxies listenSecondFails (newWorld threeConfig)).1 ≠ none ∧
      (startProxies listenSecondFails (newWorld threeConfig)).2.listens
        = ((enabledDefs threeConfig).take 2).map localAddrOf ∧
      (startProxies listenSecondFails (newWorld threeConfig)).2.pm.wg = 1 ∧
      ("a", 0) ∈ (startProxies listenSecondFails (newWorld threeConfig)).2.pm.proxies :=
  have h := (startProxies_error listenSecondFails threeConfig).2 1 defC
    "address already in use" rfl
    (fun i _ hi _ => by
      have h0 : i = 0 := by omega
      subst h0
      rfl)
    rfl
  ⟨h.1, h.2.1, h.2.2.2.2.1, (h.2.2.2.2.2.2.2.2 (by decide) 0 defA (by decide) rfl).1⟩

/-! ## handleConnection: the dial loop -/

theorem dialWithRetry_ok1 (dial : DialOracle) (a : String) (c : Nat) (h1 : dial 1 a = .ok c) :
    dialWithRetry dial a =
      { serverConn := some (Conn.server c), err := none,
        events := [Event.dial a dialTimeout] } := by
  simp [dialWithRetry, dialLoop, h1]

theorem dialWithRetry_ok2 (dial : DialOracle) (a : String) (e1 : String) (c : Nat)
    (h1 : dial 1 a = .error e1) (h2 : dial 2 a = .ok c) :
    dialWithRetry dial a =
      { serverConn := some (Conn.server c), err := none,
        events :=
          [ Event.dial a dialTimeout,
            Event.log ("Connection attempt " ++ toString 1 ++ " to " ++ a ++ " failed: " ++ e1),
            Event.sleep (backoff 1),
            Event.dial a dialTimeout ] } := by
  simp [dialWithRetry, dialLoop, h1, h2]

theorem dialWithRetry_ok3 (dial : DialOracle) (a : String) (e1 e2 : String) (c : Nat)
    (h1 : dial 1 a = .error e1) (h2 : dial 2 a = .error e2) (h3 : dial 3 a = .ok c) :
    dialWithRetry dial a =
      { serverConn := some (Conn.server c), err := none,
        events :=
          [ Event.dial a dialTimeout,
            Event.log ("Connection attempt " ++ toString 1 ++ " to " ++ a ++ " failed: " ++ e1),
            Event.sleep (backoff 1),
            Event.dial a dialTimeout,
            Event.log ("Connection attempt " ++ toString 2 ++ " to " ++ a ++ " failed: " ++ e2),
            Event.sleep (backoff 2),
            Event.dial a dialTimeout ] } := by
  simp [dialWithRetry, dialLoop, h1, h2, h3]

theorem dialWithRetry_fail (dial : DialOracle) (a : String) (e1 e2 e3 : String)
    (h1 : dial 1 a = .error e1) (h2 : dial 2 a = .error e2) (h3 : dial 3 a = .error e3) :
    dialWithRetry dial a =
      { serverConn := none, err := some e3,
        events :=
          [ Event.dial a dialTimeout,
            Event.log ("Connection attempt " ++ toString 1 ++ " to " ++ a ++ " failed: " ++ e1),
            Event.sleep (backoff 1),
            Event.dial a dialTimeout,
            Event.log ("Connection attempt " ++ toString 2 ++ " to " ++ a ++ " failed: " ++ e2),
            Event.sleep (backoff 2),
            Event.dial a dialTimeout,
            Event.log ("Connection attempt " ++ toString 3 ++ " to " ++ a ++ " failed: " ++ e3) ] } := by
  simp [dialWithRetry, dialLoop, h1, h2, h3]

/-- Three iterations are all the loop can make from `attempt = 1`: more fuel changes nothing. -/
theorem dialLoop_fuel (dial : DialOracle) (a : String) (n : Nat) :
    dialLoop dial a (3 + n) 1 { serverConn := none, err := none, events := [] }
      = dialWithRetry dial a := by
  have h : 3 + n = n + 1 + 1 + 1 := by omega
  rw [h]
  unfold dialWithRetry
  cases h1 : dial 1 a with
  | ok c => simp [dialLoop, h1]
  | error e1 =>
    cases h2 : dial 2 a with
    | ok c => simp [dialLoop, h1, h2]
    | error e2 =>
      cases h3 : dial 3 a with
      | ok c => simp [dialLoop, h1, h2, h3]
      | error e3 =>
        cases n <;> simp [dialLoop, h1, h2, h3]

/-- The four ways through the dial loop. -/
theorem dialWithRetry_cases (dial : DialOracle) (a : String) :
    (∃ c, dial 1 a = .ok c) ∨
    (∃ e1 c, dial 1 a = .error e1 ∧ dial 2 a = .ok c) ∨
    (∃ e1 e2 c, dial 1 a = .error e1 ∧ dial 2 a = .error e2 ∧ dial 3 a = .ok c) ∨
    (∃ e1 e2 e3, dial 1 a = .error e1 ∧ dial 2 a = .error e2 ∧ dial 3 a = .error e3) := by
  cases h1 : dial 1 a with
  | ok c => exact Or.inl ⟨c, rfl⟩
  | error e1 =>
    cases h2 : dial 2 a with
    | ok c => exact Or.inr (Or.inl ⟨e1, c, rfl, rfl⟩)
    | error e2 =>
      cases h3 : dial 3 a with
      | ok c => exact Or.inr (Or.inr (Or.inl ⟨e1, e2, c, rfl, rfl, rfl⟩))
      | error e3 => exact Or.inr (Or.inr (Or.inr ⟨e1, e2, e3, rfl, rfl, rfl⟩))

/-- The dial loop never ends with both variables nil. -/
theorem dialWithRetry_result (dial : DialOracle) (a : String) :
    (∃ c, (dialWithRetry dial a).err = none ∧
        (dialWithRetry dial a).serverConn = some (Conn.server c)) ∨
      (∃ e, (dialWithRetry dial a).err = some e ∧ (dialWithRetry dial a).serverConn = none) := by
  cases h1 : dial 1 a with
  | ok c => exact Or.inl ⟨c, by rw [dialWithRetry_ok1 dial a c h1]; exact ⟨rfl, rfl⟩⟩
  | error e1 =>
    cases h2 : dial 2 a with
    | ok c => exact Or.inl ⟨c, by rw [dialWithRetry_ok2 dial a e1 c h1 h2]; exact ⟨rfl, rfl⟩⟩
    | error e2 =>
      cases h3 : dial 3 a with
      | ok c =>
        exact Or.inl ⟨c, by rw [dialWithRetry_ok3 dial a e1 e2 c h1 h2 h3]; exact ⟨rfl, rfl⟩⟩
      | error e3 =>
        exact Or.inr ⟨e3, by rw [dialWithRetry_fail dial a e1 e2 e3 h1 h2 h3]; exact ⟨rfl, rfl⟩⟩

/-- The dial loop ends with the connection of the first attempt that succeeds. -/
theorem dialWithRetry_first_ok (dial : DialOracle) (a : String) (n c : Nat)
    (hn1 : 1 ≤ n) (hn3 : n ≤ 3)
    (hbefore : ∀ i, 1 ≤ i → i < n → ∃ e, dial i a = .error e) (hok : dial n a = .ok c) :
    (dialWithRetry dial a).serverConn = some (Conn.server c) ∧
      (dialWithRetry dial a).err = none := by
  rcases (by omega : n = 1 ∨ n = 2 ∨ n = 3) with hn | hn | hn
  · subst hn
    rw [dialWithRetry_ok1 dial a c hok]
    exact ⟨rfl, rfl⟩
  · subst hn
    obtain ⟨e1, h1⟩ := hbefore 1 (by omega) (by omega)
    rw [dialWithRetry_ok2 dial a e1 c h1 hok]
    exact ⟨rfl, rfl⟩
  · subst hn
    obtain ⟨e1, h1⟩ := hbefore 1 (by omega) (by omega)
    obtain ⟨e2, h2⟩ := hbefore 2 (by omega) (by omega)
    rw [dialWithRetry_ok3 dial a e1 e2 c h1 h2 hok]
    exact ⟨rfl, rfl⟩

/-- The dial loop ends with no connection and the third error when all attempts fail. -/
theorem dialWithRetry_all_fail (dial : DialOracle) (a : String)
    (hall : ∀ n, 1 ≤ n → n ≤ 3 → ∃ e, dial n a = .error e) :
    ∃ e, dial 3 a = .error e ∧ (dialWithRetry dial a).serverConn = none ∧
      (dialWithRetry dial a).err = some e := by
  obtain ⟨e1, h1⟩ := hall 1 (by omega) (by omega)
  obtain ⟨e2, h2⟩ := hall 2 (by omega) (by omega)
  obtain ⟨e3, h3⟩ := hall 3 (by omega) (by omega)
  refine ⟨e3, h3, ?_⟩
  rw [dialWithRetry_fail dial a e1 e2 e3 h1 h2 h3]
  exact ⟨rfl, rfl⟩

/-- The outcomes of three dial attempts either contain a first success or are all failures. -/
theorem dial_first_ok_or_all_fail (dial : DialOracle) (a : String) :
    (∃ n c, 1 ≤ n ∧ n ≤ 3 ∧ (∀ i, 1 ≤ i → i < n → ∃ e, dial i a = .error e) ∧
        dial n a = .ok c) ∨
      (∀ n, 1 ≤ n → n ≤ 3 → ∃ e, dial n a = .error e) := by
  rcases dialWithRetry_cases dial a with
    ⟨c, h1⟩ | ⟨e1, c, h1, h2⟩ | ⟨e1, e2, c, h1, h2, h3⟩ | ⟨e1, e2, e3, h1, h2, h3⟩
  · exact Or.inl ⟨1, c, by omega, by omega, fun i hi1 hi2 => by omega, h1⟩
  · refine Or.inl ⟨2, c, by omega, by omega, ?_, h2⟩
    intro i hi1 hi2
    have : i = 1 := by omega
    subst this
    exact ⟨e1, h1⟩
  · refine Or.inl ⟨3, c, by omega, by omega, ?_, h3⟩
    intro i hi1 hi2
    rcases (by omega : i = 1 ∨ i = 2) with hi | hi
    · subst hi; exact ⟨e1, h1⟩
    · subst hi; exact ⟨e2, h2⟩
  · right
    intro n hn1 hn3
    rcases (by omega : n = 1 ∨ n = 2 ∨ n = 3) with hn | hn | hn
    · subst hn; exact ⟨e1, h1⟩
    · subst hn; exact ⟨e2, h2⟩
    · subst hn; exact ⟨e3, h3⟩

/-- The address a handler dials, written out: `fmt.Sprintf("%s:%d", RemoteHost, RemotePort)`. -/
theorem remoteAddrOf_eq (c : ProxyConfig) :
    remoteAddrOf c = c.RemoteHost ++ ":" ++ toString c.RemotePort := rfl

theorem handleConnection_of_err (dial : DialOracle) (proxy : Proxy) (clientConn : Conn)
    (e : String) (h : (dialWithRetry dial (remoteAddrOf proxy.config)).err = some e) :
    handleConnection dial proxy clientConn =
      (dialWithRetry dial (remoteAddrOf proxy.config)).events ++
        [ Event.log ("Failed to connect to remote server " ++ remoteAddrOf proxy.config
            ++ " for proxy " ++ proxy.config.Name ++ " after 3 attempts: " ++ e),
          Event.close clientConn ] := by
  unfold handleConnection
  simp only [h]

theorem handleConnection_of_ok (dial : DialOracle) (proxy : Proxy) (clientConn : Conn)
    (serverConn : Conn)
    (h : (dialWithRetry dial (remoteAddrOf proxy.config)).err = none)
    (hs : (dialWithRetry dial (remoteAddrOf proxy.config)).serverConn = some serverConn) :
    handleConnection dial proxy clientConn =
      (dialWithRetry dial (remoteAddrOf proxy.config)).events ++
        [ Event.log ("Established connection for proxy " ++ proxy.config.Name ++ " -> "
            ++ remoteAddrOf proxy.config),
          Event.goCopy serverConn clientConn,
          Event.goCopy clientConn serverConn,
          Event.awaitDone,
          Event.cancelConn,
          Event.close serverConn,
          Event.close clientConn ] := by
  unfold handleConnection
  simp only [h, hs]

theorem dialAttempts_append (xs ys : List Event) :
    dialAttempts (xs ++ ys) = dialAttempts xs ++ dialAttempts ys := by
  induction xs with
  | nil => rfl
  | cons x xs ih => cases x <;> simp [dialAttempts, ih]

theorem sleeps_append (xs ys : List Event) :
    sleeps (xs ++ ys) = sleeps xs ++ sleeps ys := by
  induction xs with
  | nil => rfl
  | cons x xs ih => cases x <;> simp [sleeps, ih]

theorem closes_append (xs ys : List Event) :
    closes (xs ++ ys) = closes xs ++ closes ys := by
  induction xs with
  | nil => rfl
  | cons x xs ih => cases x <;> simp [closes, ih]

theorem dialAttempts_handleConnection (dial : DialOracle) (proxy : Proxy) (clientConn : Conn) :
    dialAttempts (handleConnection dial proxy clientConn)
      = dialAttempts (dialWithRetry dial (remoteAddrOf proxy.config)).events := by
  rcases dialWithRetry_result dial (remoteAddrOf proxy.config) with ⟨c, he, hs⟩ | ⟨e, he, _⟩
  · rw [handleConnection_of_ok dial proxy clientConn _ he hs, dialAttempts_append]
    simp [dialAttempts]
  · rw [handleConnection_of_err dial proxy clientConn e he, dialAttempts_append]
    simp [dialAttempts]

theorem sleeps_handleConnection (dial : DialOracle) (proxy : Proxy) (clientConn : Conn) :
    sleeps (handleConnection dial proxy clientConn)
      = sleeps (dialWithRetry dial (remoteAddrOf proxy.config)).events := by
  rcases dialWithRetry_result dial (remoteAddrOf proxy.config) with ⟨c, he, hs⟩ | ⟨e, he, _⟩
  · rw [handleConnection_of_ok dial proxy clientConn _ he hs, sleeps_append]
    simp [sleeps]
  · rw [handleConnection_of_err dial proxy clientConn e he, sleeps_append]
    simp [sleeps]

/-- The handler closes what the dial loop left it with: the server connection if there is one,
then the client connection. -/
theorem closes_handleConnection (dial : DialOracle) (proxy : Proxy) (clientConn : Conn) :
    closes (handleConnection dial proxy clientConn) =
      match (dialWithRetry dial (remoteAddrOf proxy.config)).serverConn with
      | some serverConn => [serverConn, clientConn]
      | none => [clientConn] := by
  rcases dialWithRetry_cases dial (remoteAddrOf proxy.config) with
    ⟨c, h1⟩ | ⟨e1, c, h1, h2⟩ | ⟨e1, e2, c, h1, h2, h3⟩ | ⟨e1, e2, e3, h1, h2, h3⟩
  · have hst := dialWithRetry_ok1 dial _ c h1
    rw [handleConnection_of_ok dial proxy clientConn (Conn.server c) (by rw [hst]) (by rw [hst]),
      hst]
    simp [closes]
  · have hst := dialWithRetry_ok2 dial _ e1 c h1 h2
    rw [handleConnection_of_ok dial proxy clientConn (Conn.server c) (by rw [hst]) (by rw [hst]),
      hst]
    simp [closes]
  · have hst := dialWithRetry_ok3 dial _ e1 e2 c h1 h2 h3
    rw [handleConnection_of_ok dial proxy clientConn (Conn.server c) (by rw [hst]) (by rw [hst]),
      hst]
    simp [closes]
  · have hst := dialWithRetry_fail dial _ e1 e2 e3 h1 h2 h3
    rw [handleConnection_of_err dial proxy clientConn e3 (by rw [hst]), hst]
    simp [closes]

/-- The attempts of the dial loop, in terms of the address the handler computes. -/
theorem dialLoop_attempts (dial : DialOracle) (proxy : Proxy) (clientConn : Conn) :
    ∃ n : Nat, 1 ≤ n ∧ n ≤ 3 ∧
      dialAttempts (dialWithRetry dial (remoteAddrOf proxy.config)).events
        = List.replicate n (remoteAddrOf proxy.config) ∧
      dialAttempts (handleConnection dial proxy clientConn)
        = List.replicate n (remoteAddrOf proxy.config) ∧
      (∀ i, 1 ≤ i → i < n → ∃ e, dial i (remoteAddrOf proxy.config) = .error e) ∧
      ((∃ c, dial n (remoteAddrOf proxy.config) = .ok c ∧
          (dialWithRetry dial (remoteAddrOf proxy.config)).serverConn = some (Conn.server c) ∧
          (dialWithRetry dial (remoteAddrOf proxy.config)).err = none) ∨
        (n = 3 ∧ ∃ e, dial 3 (remoteAddrOf proxy.config) = .error e ∧
          (dialWithRetry dial (remoteAddrOf proxy.config)).serverConn = none ∧
          (dialWithRetry dial (remoteAddrOf proxy.config)).err = some e)) := by
  rcases dialWithRetry_cases dial (remoteAddrOf proxy.config) with
    ⟨c, h1⟩ | ⟨e1, c, h1, h2⟩ | ⟨e1, e2, c, h1, h2, h3⟩ | ⟨e1, e2, e3, h1, h2, h3⟩
  · refine ⟨1, by omega, by omega, ?_, ?_, ?_, Or.inl ⟨c, h1, ?_, ?_⟩⟩
    · rw [dialWithRetry_ok1 dial _ c h1]; rfl
    · rw [dialAttempts_handleConnection, dialWithRetry_ok1 dial _ c h1]; rfl
    · intro i hi1 hi2; omega
    · rw [dialWithRetry_ok1 dial _ c h1]
    · rw [dialWithRetry_ok1 dial _ c h1]
  · refine ⟨2, by omega, by omega, ?_, ?_, ?_, Or.inl ⟨c, h2, ?_, ?_⟩⟩
    · rw [dialWithRetry_ok2 dial _ e1 c h1 h2]; rfl
    · rw [dialAttempts_handleConnection, dialWithRetry_ok2 dial _ e1 c h1 h2]; rfl
    · intro i hi1 hi2
      have : i = 1 := by omega
      subst this
      exact ⟨e1, h1⟩
    · rw [dialWithRetry_ok2 dial _ e1 c h1 h2]
    · rw [dialWithRetry_ok2 dial _ e1 c h1 h2]
  · refine ⟨3, by omega, by omega, ?_, ?_, ?_, Or.inl ⟨c, h3, ?_, ?_⟩⟩
    · rw [dialWithRetry_ok3 dial _ e1 e2 c h1 h2 h3]; rfl
    · rw [dialAttempts_handleConnection, dialWithRetry_ok3 dial _ e1 e2 c h1 h2 h3]; rfl
    · intro i hi1 hi2
      rcases (by omega : i = 1 ∨ i = 2) with hi | hi
      · subst hi; exact ⟨e1, h1⟩
      · subst hi; exact ⟨e2, h2⟩
    · rw [dialWithRetry_ok3 dial _ e1 e2 c h1 h2 h3]
    · rw [dialWithRetry_ok3 dial _ e1 e2 c h1 h2 h3]
  · refine ⟨3, by omega, by omega, ?_, ?_, ?_, Or.inr ⟨rfl, e3, h3, ?_, ?_⟩⟩
    · rw [dialWithRetry_fail dial _ e1 e2 e3 h1 h2 h3]; rfl
    · rw [dialAttempts_handleConnection, dialWithRetry_fail dial _ e1 e2 e3 h1 h2 h3]; rfl
    · intro i hi1 hi2
      rcases (by omega : i = 1 ∨ i = 2) with hi | hi
      · subst hi; exact ⟨e1, h1⟩
      · subst hi; exact ⟨e2, h2⟩
    · rw [dialWithRetry_fail dial _ e1 e2 e3 h1 h2 h3]
    · rw [dialWithRetry_fail dial _ e1 e2 e3 h1 h2 h3]

/-- C4: the sleep after failed attempt 1 is one second and after failed attempt 2 two seconds;
with n the number of attempts made (the first successful one, or 3), the dial attempts and
sleeps of the loop are the first 2n-1 items of dial, sleep 1s, dial, sleep 2s, dial: a sleep
only between two attempts, never after the last one. So the sleeps are a leading segment of
1s, 2s; when all three attempts fail they are exactly 1s, 2s and total 3 seconds; and the
handler sleeps nowhere else. -/
theorem backoff_spec (dial : DialOracle) (proxy : Proxy) (clientConn : Conn) :
    backoff 1 = 1 * Second ∧ backoff 2 = 2 * Second ∧
    (∃ n : Nat, 1 ≤ n ∧ n ≤ 3 ∧
      (∀ i, 1 ≤ i → i < n → ∃ e, dial i (remoteAddrOf proxy.config) = .error e) ∧
      (n < 3 → ∃ c, dial n (remoteAddrOf proxy.config) = .ok c) ∧
      timeline (dialWithRetry dial (remoteAddrOf proxy.config)).events =
        ([ Event.dial (remoteAddrOf proxy.config) dialTimeout, Event.sleep (1 * Second),
           Event.dial (remoteAddrOf proxy.config) dialTimeout, Event.sleep (2 * Second),
           Event.dial (remoteAddrOf proxy.config) dialTimeout ]).take (2 * n - 1)) ∧
    sleeps (dialWithRetry dial (remoteAddrOf proxy.config)).events
      <+: [1 * Second, 2 * Second] ∧
    ((dialWithRetry dial (remoteAddrOf proxy.config)).err ≠ none →
      sleeps (dialWithRetry dial (remoteAddrOf proxy.config)).events
        = [1 * Second, 2 * Second] ∧
      (sleeps (dialWithRetry dial (remoteAddrOf proxy.config)).events).sum = 3 * Second) ∧
    sleeps (handleConnection dial proxy clientConn)
      = sleeps (dialWithRetry dial (remoteAddrOf proxy.config)).events := by
  have hb1 : backoff 1 = 1 * Second := by decide
  have hb2 : backoff 2 = 2 * Second := by decide
  refine ⟨hb1, hb2, ?_⟩
  rcases dialWithRetry_cases dial (remoteAddrOf proxy.config) with
    ⟨c, h1⟩ | ⟨e1, c, h1, h2⟩ | ⟨e1, e2, c, h1, h2, h3⟩ | ⟨e1, e2, e3, h1, h2, h3⟩
  · have hst := dialWithRetry_ok1 dial _ c h1
    refine ⟨⟨1, by omega, by omega, ?_, ?_, ?_⟩, ?_, ?_, ?_⟩
    · intro i hi1 hi2; omega
    · intro _; exact ⟨c, h1⟩
    · rw [hst]; rfl
    · rw [hst]; simp [sleeps]
    · rw [hst]; intro h; exact absurd rfl h
    · exact sleeps_handleConnection dial proxy clientConn
  · have hst := dialWithRetry_ok2 dial _ e1 c h1 h2
    refine ⟨⟨2, by omega, by omega, ?_, ?_, ?_⟩, ?_, ?_, ?_⟩
    · intro i hi1 hi2
      have : i = 1 := by omega
      subst this
      exact ⟨e1, h1⟩
    · intro _; exact ⟨c, h2⟩
    · rw [hst]; simp [timeline, hb1]
    · rw [hst]; simp only [sleeps, hb1]
      exact ⟨[2 * Second], rfl⟩
    · rw [hst]; intro h; exact absurd rfl h
    · exact sleeps_handleConnection dial proxy clientConn
  · have hst := dialWithRetry_ok3 dial _ e1 e2 c h1 h2 h3
    refine ⟨⟨3, by omega, by omega, ?_, ?_, ?_⟩, ?_, ?_, ?_⟩
    · intro i hi1 hi2
      rcases (by omega : i = 1 ∨ i = 2) with hi | hi
      · subst hi; exact ⟨e1, h1⟩
      · subst hi; exact ⟨e2, h2⟩
    · intro h; omega
    · rw [hst]; simp [timeline, hb1, hb2]
    · rw [hst]; simp only [sleeps, hb1, hb2]
      exact ⟨[], rfl⟩
    · rw [hst]; intro h; exact absurd rfl h
    · exact sleeps_handleConnection dial proxy clientConn
  · have hst := dialWithRetry_fail dial _ e1 e2 e3 h1 h2 h3
    refine ⟨⟨3, by omega, by omega, ?_, ?_, ?_⟩, ?_, ?_, ?_⟩
    · intro i hi1 hi2
      rcases (by omega : i = 1 ∨ i = 2) with hi | hi
      · subst hi; exact ⟨e1, h1⟩
      · subst hi; exact ⟨e2, h2⟩
    · intro h; omega
    · rw [hst]; simp [timeline, hb1, hb2]
    · rw [hst]; simp only [sleeps, hb1, hb2]
      exact ⟨[], rfl⟩
    · rw [hst]
      intro _
      simp only [sleeps, hb1, hb2]
      exact ⟨trivial, by decide⟩
    · exact sleeps_handleConnection dial proxy clientConn

/-- C4 at a remote that refuses every attempt: the sleeps are 1s then 2s, 3 seconds in all. -/
theorem backoff_spec_witness :
    (dialWithRetry dialNever (remoteAddrOf (proxyOf defA).config)).err ≠ none ∧
      sleeps (dialWithRetry dialNever (remoteAddrOf (proxyOf defA).config)).events
        = [1 * Second, 2 * Second] ∧
      (sleeps (dialWithRetry dialNever (remoteAddrOf (proxyOf defA).config)).events).sum
        = 3 * Second :=
  have hne : (dialWithRetry dialNever (remoteAddrOf (proxyOf defA).config)).err ≠ none := by
    simp [dialWithRetry, dialLoop, dialNever]
  ⟨hne, (backoff_spec dialNever (proxyOf defA) (Conn.client 1)).2.2.2.2.1 hne⟩

/-! ## Goroutines: the steps of a connection handler -/

/-- A step of a connection handler in its dial loop changes neither the manager (registry,
cancellation, wait group) nor any proxy, and spawns nothing. -/
theorem step_connDial_frame (g : Nat) (dial : DialOracle) (w w1 : World)
    (h : step (Action.connDial g dial) w = some w1) :
    w1.pm = w.pm ∧ w1.heap = w.heap ∧ w1.main = w.main ∧
      w1.goroutines.length = w.goroutines.length ∧
      (∀ j, j ≠ g → w1.goroutines[j]? = w.goroutines[j]?) := by
  unfold step at h
  split at h
  · cases h
  · simp only at h
    repeat' split at h
    all_goals try (cases h)
    all_goals
      refine ⟨rfl, rfl, rfl, by simp, ?_⟩
      intro j hj
      exact List.getElem?_set_ne (Ne.symm hj)

/-- A connection handler returning from its relay changes neither the manager nor any proxy,
and spawns nothing. -/
theorem step_connEnds_frame (g : Nat) (copyDone : Bool) (w w1 : World)
    (h : step (Action.connEnds g copyDone) w = some w1) :
    w1.pm = w.pm ∧ w1.heap = w.heap ∧ w1.main = w.main ∧
      w1.goroutines.length = w.goroutines.length ∧
      (∀ j, j ≠ g → w1.goroutines[j]? = w.goroutines[j]?) := by
  unfold step at h
  split at h
  · cases h
  · simp only at h
    repeat' split at h
    all_goals try (cases h)
    all_goals
      refine ⟨rfl, rfl, rfl, by simp, ?_⟩
      intro j hj
      exact List.getElem?_set_ne (Ne.symm hj)

/-- Line 181: when the `Accept` of the loop of the proxy `ref` returns a connection, the
handler spawned for it is given that same proxy, and the loop goes back to its `select`. -/
theorem step_acceptReturns_spawn (w w1 : World) (g ref c : Nat)
    (hg : w.goroutines[g]? = some (Goroutine.handleProxy ref LoopPC.accept))
    (h : step (Action.acceptReturns g (.ok c)) w = some w1) :
    w1.goroutines = w.goroutines.set g (Goroutine.handleProxy ref LoopPC.select)
        ++ [Goroutine.handleConnection ref (Conn.client c) ConnPC.dialing] ∧
      w1.heap = w.heap ∧ w1.pm = w.pm ∧ w1.closedConns = w.closedConns := by
  unfold step at h
  split at h
  · cases h
  · simp only [hg] at h
    split at h
    · cases h
    · simp only [acceptStep, List.foldl_cons, List.foldl_nil, applyLoopEvent] at h
      cases h
      exact ⟨rfl, rfl, rfl, rfl⟩

/-- A handler in its dial loop runs the loop on `remoteHost:remotePort` of the definition of
its own proxy: it goes on to relay with the connection that loop dialed, or returns after
closing the client connection when the loop failed. -/
theorem step_connDial_result (w w1 : World) (g ref : Nat) (clientConn : Conn) (proxy : Proxy)
    (dial : DialOracle)
    (hg : w.goroutines[g]? = some (Goroutine.handleConnection ref clientConn ConnPC.dialing))
    (hp : w.heap[ref]? = some proxy)
    (h : step (Action.connDial g dial) w = some w1) :
    (∃ s, (dialWithRetry dial
          (proxy.config.RemoteHost ++ ":" ++ toString proxy.config.RemotePort)).serverConn
          = some s ∧
        w1.goroutines = w.goroutines.set g
          (Goroutine.handleConnection ref clientConn (ConnPC.relaying s)) ∧
        w1.closedConns = w.closedConns) ∨
      ((dialWithRetry dial
          (proxy.config.RemoteHost ++ ":" ++ toString proxy.config.RemotePort)).serverConn
          = none ∧
        w1.goroutines = w.goroutines.set g
          (Goroutine.handleConnection ref clientConn ConnPC.returned) ∧
        w1.closedConns = w.closedConns ++ [clientConn]) := by
  rw [← remoteAddrOf_eq]
  unfold step at h
  split at h
  · cases h
  · simp only [hg, hp] at h
    rcases dialWithRetry_result dial (remoteAddrOf proxy.config) with ⟨c, he, hs⟩ | ⟨e, he, hs⟩
    · simp only [he, hs] at h
      cases h
      exact Or.inl ⟨Conn.server c, hs, rfl, rfl⟩
    · simp only [he] at h
      cases h
      exact Or.inr ⟨hs, rfl, rfl⟩

/-- A handler in its dial loop can always take its step while the process runs. -/
theorem step_connDial_enabled (w : World) (g ref : Nat) (clientConn : Conn) (proxy : Proxy)
    (dial : DialOracle) (hex : exited w = false)
    (hg : w.goroutines[g]? = some (Goroutine.handleConnection ref clientConn ConnPC.dialing))
    (hp : w.heap[ref]? = some proxy) :
    ∃ w1, step (Action.connDial g dial) w = some w1 := by
  unfold step
  simp only [hex, hg, hp]
  rcases dialWithRetry_result dial (remoteAddrOf proxy.config) with ⟨c, he, hs⟩ | ⟨e, he, hs⟩
  · simp [he, hs]
  · simp [he]

/-- A handler that leaves its relay closes the server connection it was relaying to, then the
client connection, and returns. -/
theorem step_connEnds_result (w w1 : World) (g ref : Nat) (clientConn serverConn : Conn)
    (copyDone : Bool)
    (hg : w.goroutines[g]? =
      some (Goroutine.handleConnection ref clientConn (ConnPC.relaying serverConn)))
    (h : step (Action.connEnds g copyDone) w = some w1) :
    w1.closedConns = w.closedConns ++ [serverConn, clientConn] ∧
      w1.goroutines = w.goroutines.set g
        (Goroutine.handleConnection ref clientConn ConnPC.returned) := by
  unfold step at h
  split at h
  · cases h
  · simp only [hg] at h
    split at h
    · cases h
      exact ⟨rfl, rfl⟩
    · cases h

/-- A handler's dial step in terms of the outcomes of the attempts on
`remoteHost:remotePort` of its own proxy's definition. -/
theorem step_connDial_by_oracle (w w1 : World) (g ref : Nat) (clientConn : Conn)
    (proxy : Proxy) (dial : DialOracle) (addr : String)
    (ha : addr = proxy.config.RemoteHost ++ ":" ++ toString proxy.config.RemotePort)
    (hg : w.goroutines[g]? = some (Goroutine.handleConnection ref clientConn ConnPC.dialing))
    (hp : w.heap[ref]? = some proxy)
    (h : step (Action.connDial g dial) w = some w1) :
    (∃ n c, 1 ≤ n ∧ n ≤ 3 ∧ (∀ i, 1 ≤ i → i < n → ∃ e, dial i addr = .error e) ∧
        dial n addr = .ok c ∧
        w1.goroutines = w.goroutines.set g
          (Goroutine.handleConnection ref clientConn (ConnPC.relaying (Conn.server c))) ∧
        w1.closedConns = w.closedConns) ∨
      ((∀ n, 1 ≤ n → n ≤ 3 → ∃ e, dial n addr = .error e) ∧
        w1.goroutines = w.goroutines.set g
          (Goroutine.handleConnection ref clientConn ConnPC.returned) ∧
        w1.closedConns = w.closedConns ++ [clientConn]) := by
  subst ha
  have hres := step_connDial_result w w1 g ref clientConn proxy dial hg hp h
  rcases dial_first_ok_or_all_fail dial
      (proxy.config.RemoteHost ++ ":" ++ toString proxy.config.RemotePort) with
    ⟨n, c, hn1, hn3, hbefore, hok⟩ | hall
  · have hs := (dialWithRetry_first_ok dial _ n c hn1 hn3 hbefore hok).1
    rcases hres with ⟨s, hs2, hg1, hc1⟩ | ⟨hnone, _, _⟩
    · rw [hs] at hs2
      cases hs2
      exact Or.inl ⟨n, c, hn1, hn3, hbefore, hok, hg1, hc1⟩
    · rw [hs] at hnone
      cases hnone
  · obtain ⟨e, _, hnone, _⟩ := dialWithRetry_all_fail dial _ hall
    rcases hres with ⟨s, hs2, _, _⟩ | ⟨_, hg1, hc1⟩
    · rw [hnone] at hs2
      cases hs2
    · exact Or.inr ⟨hall, hg1, hc1⟩

/-! ## Goroutines: the proxies keep their definitions -/

theorem fixedPart_set_same (heap : List Proxy) (r : Nat) (p q : Proxy)
    (hp : heap[r]? = some p) (hq : q.fixedPart = p.fixedPart) :
    (heap.set r q).map Proxy.fixedPart = heap.map Proxy.fixedPart := by
  apply List.ext_getElem?
  intro j
  rw [List.getElem?_map, List.getElem?_map, List.getElem?_set]
  by_cases hj : r = j
  · subst hj
    have hlt : r < heap.length := by
      rcases Nat.lt_or_ge r heap.length with hl | hl
      · exact hl
      · rw [List.getElem?_eq_none hl] at hp; cases hp
    simp only [if_true, hlt, hp, Option.map_some', hq]
  · simp only [hj, if_false]

theorem fixedPart_closeListener (heap : List Proxy) (r : Nat) :
    (closeListener heap r).map Proxy.fixedPart = heap.map Proxy.fixedPart := by
  unfold closeListener
  cases hp : heap[r]? with
  | none => rfl
  | some p => exact fixedPart_set_same heap r p _ hp rfl

theorem fixedPart_cancelProxy (heap : List Proxy) (r : Nat) :
    (cancelProxy heap r).map Proxy.fixedPart = heap.map Proxy.fixedPart := by
  unfold cancelProxy
  cases hp : heap[r]? with
  | none => rfl
  | some p => exact fixedPart_set_same heap r p _ hp rfl

theorem fixedPart_foldl_cancelProxy (l : List (String × Nat)) (heap : List Proxy) :
    (l.foldl (fun heap e => cancelProxy heap e.2) heap).map Proxy.fixedPart
      = heap.map Proxy.fixedPart := by
  induction l generalizing heap with
  | nil => rfl
  | cons e l ih => rw [List.foldl_cons, ih, fixedPart_cancelProxy]

theorem foldl_applyLoopEvent_frame (ref : Nat) (evs : List Event) (w : World) :
    (evs.foldl (applyLoopEvent ref) w).heap = w.heap ∧
      (evs.foldl (applyLoopEvent ref) w).pm = w.pm := by
  induction evs generalizing w with
  | nil => exact ⟨rfl, rfl⟩
  | cons e evs ih =>
    rw [List.foldl_cons]
    obtain ⟨h1, h2⟩ := ih (applyLoopEvent ref w e)
    rw [h1, h2]
    cases e <;> exact ⟨rfl, rfl⟩

/-- No step changes the configuration or the definition or listener address of an existing
proxy; only `startProxies` adds proxies, each built from an enabled definition of the
configuration. -/
theorem step_heap (a : Action) (w w1 : World) (h : step a w = some w1) :
    w1.pm.config = w.pm.config ∧
      ∃ extra : List ProxyConfig,
        (∀ c ∈ extra, c ∈ w.pm.config.Proxies ∧ c.Enabled = true) ∧
        w1.heap.map Proxy.fixedPart
          = w.heap.map Proxy.fixedPart ++ extra.map (fun c => (c, localAddrOf c)) := by
  have hsame : ∀ w2 : World, w2.pm.config = w.pm.config →
      w2.heap.map Proxy.fixedPart = w.heap.map Proxy.fixedPart →
      w2.pm.config = w.pm.config ∧
      ∃ extra : List ProxyConfig,
        (∀ c ∈ extra, c ∈ w.pm.config.Proxies ∧ c.Enabled = true) ∧
        w2.heap.map Proxy.fixedPart
          = w.heap.map Proxy.fixedPart ++ extra.map (fun c => (c, localAddrOf c)) := by
    intro w2 h1 h2
    exact ⟨h1, [], by simp, by simp [h2]⟩
  have hexit : ∀ g ref : Nat, (loopExit w g ref).pm.config = w.pm.config ∧
      (loopExit w g ref).heap.map Proxy.fixedPart = w.heap.map Proxy.fixedPart := by
    intro g ref
    exact ⟨rfl, fixedPart_closeListener w.heap ref⟩
  cases a with
  | startProxies net =>
    obtain ⟨_, _, h3, _, _, h6, _, _, _, _⟩ :=
      startProxiesLoop_fields net w.pm.config.Proxies w
    have hres : (startProxies net w).2.pm.config = w.pm.config ∧
        ∃ extra : List ProxyConfig,
          (∀ c ∈ extra, c ∈ w.pm.config.Proxies ∧ c.Enabled = true) ∧
          (startProxies net w).2.heap.map Proxy.fixedPart
            = w.heap.map Proxy.fixedPart ++ extra.map (fun c => (c, localAddrOf c)) := by
      refine ⟨h6, (w.pm.config.Proxies.filter (fun c => c.Enabled)).take
        (listenSuccesses net w.listens.length
          (w.pm.config.Proxies.filter (fun c => c.Enabled))), ?_, ?_⟩
      · intro c hc
        have hc2 := List.mem_of_mem_take hc
        rw [List.mem_filter] at hc2
        exact ⟨hc2.1, by simpa using hc2.2⟩
      · unfold startProxies
        rw [h3, List.map_append, List.map_map]
        rfl
    unfold step at h
    split at h
    · cases h
    · simp only at h
      split at h
      · split at h
        · next heq =>
          cases h
          have : (startProxies net w).2 = _ := congrArg Prod.snd heq
          rw [this] at hres
          exact hres
        · next heq =>
          cases h
          have : (startProxies net w).2 = _ := congrArg Prod.snd heq
          rw [this] at hres
          exact hres
      · cases h
  | loopSelect g =>
    unfold step at h
    split at h
    · cases h
    · simp only at h
      split at h
      · split at h
        · cases h
          exact hsame _ (hexit _ _).1 (hexit _ _).2
        · cases h
          exact hsame _ rfl rfl
      · cases h
  | acceptReturns g result =>
    unfold step at h
    split at h
    · cases h
    · simp only at h
      split at h
      · split at h
        · cases h
        · split at h
          · cases h
            exact hsame _ (hexit _ _).1 (hexit _ _).2
          · cases h
            have hf := foldl_applyLoopEvent_frame
            exact hsame _ (by rw [(hf _ _ _).2]) (by rw [(hf _ _ _).1])
      · cases h
  | connDial g dial =>
    have hf := step_connDial_frame g dial w w1 h
    exact hsame w1 (by rw [hf.1]) (by rw [hf.2.1])
  | connEnds g copyDone =>
    have hf := step_connEnds_frame g copyDone w w1 h
    exact hsame w1 (by rw [hf.1]) (by rw [hf.2.1])
  | shutdownSignal =>
    unfold step at h
    split at h
    · cases h
    · simp only at h
      split at h
      · cases h
        exact hsame _ rfl (fixedPart_foldl_cancelProxy _ _)
      · cases h
  | shutdownReturn =>
    unfold step at h
    split at h
    · cases h
    · simp only at h
      split at h
      · cases h
        exact hsame _ rfl rfl
      · cases h

/-- A proxy that exists keeps its definition and its listener address through every step. -/
theorem step_proxy_stable (a : Action) (w w1 : World) (ref : Nat) (p : Proxy)
    (h : step a w = some w1) (hp : w.heap[ref]? = some p) :
    ∃ p1, w1.heap[ref]? = some p1 ∧ p1.config = p.config ∧
      p1.listener.addr = p.listener.addr := by
  obtain ⟨_, extra, _, hmap⟩ := step_heap a w w1 h
  have hget := congrArg (fun l => l[ref]?) hmap
  simp only [List.getElem?_map] at hget
  have hlt : ref < w.heap.length := by
    rcases Nat.lt_or_ge ref w.heap.length with hl | hl
    · exact hl
    · rw [List.getElem?_eq_none hl] at hp; cases hp
  rw [List.getElem?_append_left (by simpa using hlt), List.getElem?_map, hp] at hget
  cases h1 : w1.heap[ref]? with
  | none => rw [h1] at hget; cases hget
  | some p1 =>
    rw [h1] at hget
    simp only [Option.map_some', Option.some.injEq, Proxy.fixedPart, Prod.mk.injEq] at hget
    exact ⟨p1, rfl, hget.1, hget.2⟩

/-- A run keeps every proxy built from an enabled definition of the configuration, with its
listener on that definition's local address. -/
theorem run_proxies_defined (config : Config) (actions : List Action) (w w1 : World)
    (hcfg : w.pm.config = config)
    (hinv : ∀ x ∈ w.heap.map Proxy.fixedPart,
      x.1 ∈ config.Proxies ∧ x.1.Enabled = true ∧ x.2 = localAddrOf x.1)
    (h : run actions w = some w1) :
    ∀ x ∈ w1.heap.map Proxy.fixedPart,
      x.1 ∈ config.Proxies ∧ x.1.Enabled = true ∧ x.2 = localAddrOf x.1 := by
  induction actions generalizing w with
  | nil =>
    simp only [run] at h
    cases h
    exact hinv
  | cons a rest ih =>
    simp only [run] at h
    split at h
    · next w2 hstep =>
      obtain ⟨hc, extra, hextra, hmap⟩ := step_heap a w w2 hstep
      apply ih w2 (hc.trans hcfg) _ h
      intro x hx
      rw [hmap, List.mem_append] at hx
      rcases hx with hx | hx
      · exact hinv x hx
      · rw [List.mem_map] at hx
        obtain ⟨c, hcmem, rfl⟩ := hx
        have := hextra c hcmem
        rw [hcfg] at this
        exact ⟨this.1, this.2, rfl⟩
    · cases h

/-- In every reachable state every proxy is built from an enabled definition of the
configuration, and its listener is bound to `localHost:localPort` of that definition. -/
theorem reachable_proxies_defined (config : Config) (w : World) (h : Reachable config w)
    (ref : Nat) (p : Proxy) (hp : w.heap[ref]? = some p) :
    p.config ∈ config.Proxies ∧ p.config.Enabled = true ∧
      p.listener.addr = p.config.LocalHost ++ ":" ++ toString p.config.LocalPort := by
  obtain ⟨actions, hrun⟩ := h
  have hall := run_proxies_defined config actions (newWorld config) w rfl
    (by intro x hx; simp [newWorld] at hx) hrun
  have hmem : p.fixedPart ∈ w.heap.map Proxy.fixedPart :=
    List.mem_map_of_mem _ (List.getElem?_mem hp)
  exact hall _ hmem

/-! ## handleConnection: where it dials -/

/-- C3: with `addr` the string `remoteHost:remotePort` of the definition of the handler's
proxy, the dial loop of `handleConnection` makes n attempts with 1 ≤ n ≤ 3, all of them to
`addr`; the attempts before the n-th fail; and either the n-th attempt succeeds and the loop
ends with its connection and no error, or n = 3, the third attempt fails, and the loop ends
with no connection and the third attempt's error. The handler dials nowhere else. In the
running program the handler spawned at line 181 is given the proxy of the loop that accepted
the connection; its dial step is decided by the outcomes of the attempts on `addr` of that
proxy and can always be taken; no step changes the definition or the listener address of a
proxy; and every proxy of a reachable state is built from an enabled definition of the
configuration and listens on that definition's `localHost:localPort`. -/
theorem dialWithRetry_spec (dial : DialOracle) (proxy : Proxy) (clientConn : Conn)
    (addr : String)
    (ha : addr = proxy.config.RemoteHost ++ ":" ++ toString proxy.config.RemotePort) :
    (∃ n : Nat, 1 ≤ n ∧ n ≤ 3 ∧
      dialAttempts (dialWithRetry dial addr).events = List.replicate n addr ∧
      dialAttempts (handleConnection dial proxy clientConn) = List.replicate n addr ∧
      (∀ i, 1 ≤ i → i < n → ∃ e, dial i addr = .error e) ∧
      ((∃ c, dial n addr = .ok c ∧
          (dialWithRetry dial addr).serverConn = some (Conn.server c) ∧
          (dialWithRetry dial addr).err = none) ∨
        (n = 3 ∧ ∃ e, dial 3 addr = .error e ∧
          (dialWithRetry dial addr).serverConn = none ∧
          (dialWithRetry dial addr).err = some e))) ∧
    (∀ (w w1 : World) (g ref c : Nat),
      w.goroutines[g]? = some (Goroutine.handleProxy ref LoopPC.accept) →
      step (Action.acceptReturns g (.ok c)) w = some w1 →
      w1.goroutines = w.goroutines.set g (Goroutine.handleProxy ref LoopPC.select)
          ++ [Goroutine.handleConnection ref (Conn.client c) ConnPC.dialing] ∧
        w1.heap = w.heap) ∧
    (∀ (w w1 : World) (g ref : Nat),
      w.goroutines[g]? = some (Goroutine.handleConnection ref clientConn ConnPC.dialing) →
      w.heap[ref]? = some proxy →
      step (Action.connDial g dial) w = some w1 →
      (∃ n c, 1 ≤ n ∧ n ≤ 3 ∧ (∀ i, 1 ≤ i → i < n → ∃ e, dial i addr = .error e) ∧
          dial n addr = .ok c ∧
          w1.goroutines = w.goroutines.set g
            (Goroutine.handleConnection ref clientConn (ConnPC.relaying (Conn.server c))) ∧
          w1.closedConns = w.closedConns) ∨
        ((∀ n, 1 ≤ n → n ≤ 3 → ∃ e, dial n addr = .error e) ∧
          w1.goroutines = w.goroutines.set g
            (Goroutine.handleConnection ref clientConn ConnPC.returned) ∧
          w1.closedConns = w.closedConns ++ [clientConn])) ∧
    (∀ (w : World) (g ref : Nat), exited w = false →
      w.goroutines[g]? = some (Goroutine.handleConnection ref clientConn ConnPC.dialing) →
      w.heap[ref]? = some proxy →
      ∃ w1, step (Action.connDial g dial) w = some w1) ∧
    (∀ (act : Action) (w w1 : World) (ref : Nat) (p : Proxy),
      step act w = some w1 → w.heap[ref]? = some p →
      ∃ p1, w1.heap[ref]? = some p1 ∧ p1.config = p.config ∧
        p1.listener.addr = p.listener.addr) ∧
    (∀ (config : Config) (w : World) (ref : Nat) (p : Proxy),
      Reachable config w → w.heap[ref]? = some p →
      p.config ∈ config.Proxies ∧ p.config.Enabled = true ∧
        p.listener.addr = p.config.LocalHost ++ ":" ++ toString p.config.LocalPort) := by
  refine ⟨?_, ?_, ?_, ?_, ?_, ?_⟩
  · subst ha
    exact dialLoop_attempts dial proxy clientConn
  · intro w w1 g ref c hg h
    have := step_acceptReturns_spawn w w1 g ref c hg h
    exact ⟨this.1, this.2.1⟩
  · intro w w1 g ref hg hp h
    exact step_connDial_by_oracle w w1 g ref clientConn proxy dial addr ha hg hp h
  · intro w g ref hex hg hp
    exact step_connDial_enabled w g ref clientConn proxy dial hex hg hp
  · intro act w w1 ref p h hp
    exact step_proxy_stable act w w1 ref p h hp
  · intro config w ref p h hp
    exact reachable_proxies_defined config w h ref p hp

/-- C3 on a running program with the proxies `a` (remote `db:5432`) and `c` (remote
`cache:6379`): a connection accepted by the loop of `c` gets a handler on the proxy of `c`,
and on a network where only `cache:6379` answers that handler dials once and relays. -/
theorem dialWithRetry_spec_witness :
    "cache:6379" = (proxyOf defC).config.RemoteHost ++ ":"
        ++ toString (proxyOf defC).config.RemotePort ∧
      dialAttempts (handleConnection dialCacheOnly (proxyOf defC) (Conn.client 5))
        = ["cache:6379"] ∧
      step (Action.acceptReturns 1 (.ok 5)) acceptingWorld = some dialingWorld ∧
      dialingWorld.goroutines =
        [ Goroutine.handleProxy 0 LoopPC.select,
          Goroutine.handleProxy 1 LoopPC.select,
          Goroutine.handleConnection 1 (Conn.client 5) ConnPC.dialing ] ∧
      dialingWorld.heap[1]? = some (proxyOf defC) ∧
      step (Action.connDial 2 dialCacheOnly) dialingWorld = some relayingWorld ∧
      relayingWorld.goroutines =
        [ Goroutine.handleProxy 0 LoopPC.select,
          Goroutine.handleProxy 1 LoopPC.select,
          Goroutine.handleConnection 1 (Conn.client 5)
            (ConnPC.relaying (Conn.server 9)) ] := by
  have hthm := dialWithRetry_spec dialCacheOnly (proxyOf defC) (Conn.client 5)
    "cache:6379" rfl
  have hok : dialCacheOnly 1 "cache:6379" = .ok 9 := rfl
  have hstep1 : step (Action.acceptReturns 1 (.ok 5)) acceptingWorld = some dialingWorld := rfl
  have hstep2 : step (Action.connDial 2 dialCacheOnly) dialingWorld = some relayingWorld := rfl
  refine ⟨rfl, ?_, hstep1, ?_, rfl, hstep2, ?_⟩
  · obtain ⟨n, hn1, _, _, hatt, hbefore, _⟩ := hthm.1
    have hn : n = 1 := by
      rcases Nat.lt_or_ge 1 n with hlt | hge
      · obtain ⟨e, he⟩ := hbefore 1 (Nat.le_refl 1) hlt
        rw [hok] at he
        cases he
      · omega
    subst hn
    exact hatt
  · exact (hthm.2.1 acceptingWorld dialingWorld 1 1 5 rfl hstep1).1
  · rcases hthm.2.2.1 dialingWorld relayingWorld 2 1 rfl rfl hstep2 with
      ⟨n, c, _, _, _, _, hg, _⟩ | ⟨hall, _, _⟩
    · rfl
    · obtain ⟨e, he⟩ := hall 1 (Nat.le_refl 1) (by omega)
      rw [hok] at he
      cases he

/-! ## handleConnection: what it closes and what it leaves alone -/

/-- What the handler closes and its trace when every attempt fails, in terms of the address
the handler computes; and that its steps leave the rest of the program alone. -/
theorem handleConnection_closes_cases (dial : DialOracle) (proxy : Proxy) (client : Nat) :
    (closes (handleConnection dial proxy (Conn.client client)) = [Conn.client client] ∨
      ∃ c, closes (handleConnection dial proxy (Conn.client client))
        = [Conn.server c, Conn.client client]) ∧
    ((∃ c, closes (handleConnection dial proxy (Conn.client client))
        = [Conn.server c, Conn.client client]) ↔
      ∃ (n : Nat) (c : Nat), 1 ≤ n ∧ n ≤ 3 ∧ dial n (remoteAddrOf proxy.config) = .ok c) ∧
    (∀ e1 e2 e3 : String, dial 1 (remoteAddrOf proxy.config) = .error e1 →
      dial 2 (remoteAddrOf proxy.config) = .error e2 →
      dial 3 (remoteAddrOf proxy.config) = .error e3 →
      handleConnection dial proxy (Conn.client client) =
        [ Event.dial (remoteAddrOf proxy.config) dialTimeout,
          Event.log ("Connection attempt " ++ toString 1 ++ " to " ++ remoteAddrOf proxy.config
            ++ " failed: " ++ e1),
          Event.sleep (1 * Second),
          Event.dial (remoteAddrOf proxy.config) dialTimeout,
          Event.log ("Connection attempt " ++ toString 2 ++ " to " ++ remoteAddrOf proxy.config
            ++ " failed: " ++ e2),
          Event.sleep (2 * Second),
          Event.dial (remoteAddrOf proxy.config) dialTimeout,
          Event.log ("Connection attempt " ++ toString 3 ++ " to " ++ remoteAddrOf proxy.config
            ++ " failed: " ++ e3),
          Event.log ("Failed to connect to remote server " ++ remoteAddrOf proxy.config
            ++ " for proxy " ++ proxy.config.Name ++ " after 3 attempts: " ++ e3),
          Event.close (Conn.client client) ]) ∧
    (∀ (g : Nat) (w w1 : World), step (Action.connDial g dial) w = some w1 →
      w1.pm = w.pm ∧ w1.heap = w.heap ∧ w1.goroutines.length = w.goroutines.length ∧
      (∀ j, j ≠ g → w1.goroutines[j]? = w.goroutines[j]?)) ∧
    (∀ (g : Nat) (copyDone : Bool) (w w1 : World),
      step (Action.connEnds g copyDone) w = some w1 →
      w1.pm = w.pm ∧ w1.heap = w.heap ∧ w1.goroutines.length = w.goroutines.length ∧
      (∀ j, j ≠ g → w1.goroutines[j]? = w.goroutines[j]?)) := by
  have hcl := closes_handleConnection dial proxy (Conn.client client)
  refine ⟨?_, ?_, ?_, ?_, ?_⟩
  · rcases dialWithRetry_result dial (remoteAddrOf proxy.config) with ⟨c, _, hs⟩ | ⟨e, _, hs⟩
    · rw [hs] at hcl; exact Or.inr ⟨c, hcl⟩
    · rw [hs] at hcl; exact Or.inl hcl
  · rcases dialWithRetry_cases dial (remoteAddrOf proxy.config) with
      ⟨c, h1⟩ | ⟨e1, c, h1, h2⟩ | ⟨e1, e2, c, h1, h2, h3⟩ | ⟨e1, e2, e3, h1, h2, h3⟩
    · rw [dialWithRetry_ok1 dial _ c h1] at hcl
      exact ⟨fun _ => ⟨1, c, by omega, by omega, h1⟩, fun _ => ⟨c, hcl⟩⟩
    · rw [dialWithRetry_ok2 dial _ e1 c h1 h2] at hcl
      exact ⟨fun _ => ⟨2, c, by omega, by omega, h2⟩, fun _ => ⟨c, hcl⟩⟩
    · rw [dialWithRetry_ok3 dial _ e1 e2 c h1 h2 h3] at hcl
      exact ⟨fun _ => ⟨3, c, by omega, by omega, h3⟩, fun _ => ⟨c, hcl⟩⟩
    · rw [dialWithRetry_fail dial _ e1 e2 e3 h1 h2 h3] at hcl
      constructor
      · rintro ⟨c, hc⟩
        rw [hcl] at hc
        simp at hc
      · rintro ⟨n, c, hn1, hn3, hok⟩
        rcases (by omega : n = 1 ∨ n = 2 ∨ n = 3) with hn | hn | hn
        · subst hn; rw [h1] at hok; cases hok
        · subst hn; rw [h2] at hok; cases hok
        · subst hn; rw [h3] at hok; cases hok
  · intro e1 e2 e3 h1 h2 h3
    have hst := dialWithRetry_fail dial _ e1 e2 e3 h1 h2 h3
    rw [handleConnection_of_err dial proxy (Conn.client client) e3 (by rw [hst]), hst]
    have hb1 : backoff 1 = 1 * Second := by decide
    have hb2 : backoff 2 = 2 * Second := by decide
    simp [hb1, hb2]
  · intro g w w1 h
    have := step_connDial_frame g dial w w1 h
    exact ⟨this.1, this.2.1, this.2.2.2.1, this.2.2.2.2⟩
  · intro g copyDone w w1 h
    have := step_connEnds_frame g copyDone w w1 h
    exact ⟨this.1, this.2.1, this.2.2.2.1, this.2.2.2.2⟩

/-- C9: with `addr` the string `remoteHost:remotePort` of the definition of the handler's
proxy, `handleConnection` closes the client connection exactly once, last. When attempt n is
the first to succeed, with connection c, the handler goes on from the dial loop to log, start
the two copy goroutines between the client connection and c, wait, cancel its scope, and
close c and then the client connection: the server connection closed is the dialed one. When
all three attempts fail it does exactly this: dial, log, sleep 1s, dial, log, sleep 2s, dial,
log, log the failure, close the client connection; no copy goroutine, no accept, no further
dial, nothing else closed. As a goroutine of the program, a handler that has dialed c relays
to c, and on leaving closes c and the client connection; one whose attempts all failed
returns having closed only the client connection; and a handler's steps leave the manager
(registry, cancellation, wait group), every proxy and every other goroutine as they were. -/
theorem handleConnection_closes (dial : DialOracle) (proxy : Proxy) (client : Nat)
    (addr : String)
    (ha : addr = proxy.config.RemoteHost ++ ":" ++ toString proxy.config.RemotePort) :
    (closes (handleConnection dial proxy (Conn.client client)) = [Conn.client client] ∨
      ∃ c, closes (handleConnection dial proxy (Conn.client client))
        = [Conn.server c, Conn.client client]) ∧
    ((∃ c, closes (handleConnection dial proxy (Conn.client client))
        = [Conn.server c, Conn.client client]) ↔
      ∃ (n : Nat) (c : Nat), 1 ≤ n ∧ n ≤ 3 ∧ dial n addr = .ok c) ∧
    (∀ n c : Nat, 1 ≤ n → n ≤ 3 → (∀ i, 1 ≤ i → i < n → ∃ e, dial i addr = .error e) →
      dial n addr = .ok c →
      closes (handleConnection dial proxy (Conn.client client))
        = [Conn.server c, Conn.client client] ∧
      closes (dialWithRetry dial addr).events = [] ∧
      handleConnection dial proxy (Conn.client client) =
        (dialWithRetry dial addr).events ++
          [ Event.log ("Established connection for proxy " ++ proxy.config.Name ++ " -> "
              ++ addr),
            Event.goCopy (Conn.server c) (Conn.client client),
            Event.goCopy (Conn.client client) (Conn.server c),
            Event.awaitDone,
            Event.cancelConn,
            Event.close (Conn.server c),
            Event.close (Conn.client client) ]) ∧
    ((∀ n, 1 ≤ n → n ≤ 3 → ∃ e, dial n addr = .error e) →
      closes (handleConnection dial proxy (Conn.client client)) = [Conn.client client]) ∧
    (∀ e1 e2 e3 : String, dial 1 addr = .error e1 → dial 2 addr = .error e2 →
      dial 3 addr = .error e3 →
      handleConnection dial proxy (Conn.client client) =
        [ Event.dial addr dialTimeout,
          Event.log ("Connection attempt " ++ toString 1 ++ " to " ++ addr
            ++ " failed: " ++ e1),
          Event.sleep (1 * Second),
          Event.dial addr dialTimeout,
          Event.log ("Connection attempt " ++ toString 2 ++ " to " ++ addr
            ++ " failed: " ++ e2),
          Event.sleep (2 * Second),
          Event.dial addr dialTimeout,
          Event.log ("Connection attempt " ++ toString 3 ++ " to " ++ addr
            ++ " failed: " ++ e3),
          Event.log ("Failed to connect to remote server " ++ addr
            ++ " for proxy " ++ proxy.config.Name ++ " after 3 attempts: " ++ e3),
          Event.close (Conn.client client) ]) ∧
    (∀ (w w1 : World) (g ref : Nat),
      w.goroutines[g]? =
        some (Goroutine.handleConnection ref (Conn.client client) ConnPC.dialing) →
      w.heap[ref]? = some proxy →
      step (Action.connDial g dial) w = some w1 →
      (∃ n c, 1 ≤ n ∧ n ≤ 3 ∧ (∀ i, 1 ≤ i → i < n → ∃ e, dial i addr = .error e) ∧
          dial n addr = .ok c ∧
          w1.goroutines = w.goroutines.set g
            (Goroutine.handleConnection ref (Conn.client client)
              (ConnPC.relaying (Conn.server c))) ∧
          w1.closedConns = w.closedConns) ∨
        ((∀ n, 1 ≤ n → n ≤ 3 → ∃ e, dial n addr = .error e) ∧
          w1.goroutines = w.goroutines.set g
            (Goroutine.handleConnection ref (Conn.client client) ConnPC.returned) ∧
          w1.closedConns = w.closedConns ++ [Conn.client client])) ∧
    (∀ (w w1 : World) (g ref : Nat) (serverConn : Conn) (copyDone : Bool),
      w.goroutines[g]? =
        some (Goroutine.handleConnection ref (Conn.client client)
          (ConnPC.relaying serverConn)) →
      step (Action.connEnds g copyDone) w = some w1 →
      w1.closedConns = w.closedConns ++ [serverConn, Conn.client client] ∧
        w1.goroutines = w.goroutines.set g
          (Goroutine.handleConnection ref (Conn.client client) ConnPC.returned)) ∧
    (∀ (g : Nat) (w w1 : World), step (Action.connDial g dial) w = some w1 →
      w1.pm = w.pm ∧ w1.heap = w.heap ∧ w1.goroutines.length = w.goroutines.length ∧
      (∀ j, j ≠ g → w1.goroutines[j]? = w.goroutines[j]?)) ∧
    (∀ (g : Nat) (copyDone : Bool) (w w1 : World),
      step (Action.connEnds g copyDone) w = some w1 →
      w1.pm = w.pm ∧ w1.heap = w.heap ∧ w1.goroutines.length = w.goroutines.length ∧
      (∀ j, j ≠ g → w1.goroutines[j]? = w.goroutines[j]?)) := by
  have hold := handleConnection_closes_cases dial proxy client
  have hsucc : ∀ n c : Nat, 1 ≤ n → n ≤ 3 →
      (∀ i, 1 ≤ i → i < n → ∃ e, dial i addr = .error e) → dial n addr = .ok c →
      closes (handleConnection dial proxy (Conn.client client))
        = [Conn.server c, Conn.client client] ∧
      closes (dialWithRetry dial addr).events = [] ∧
      handleConnection dial proxy (Conn.client client) =
        (dialWithRetry dial addr).events ++
          [ Event.log ("Established connection for proxy " ++ proxy.config.Name ++ " -> "
              ++ addr),
            Event.goCopy (Conn.server c) (Conn.client client),
            Event.goCopy (Conn.client client) (Conn.server c),
            Event.awaitDone,
            Event.cancelConn,
            Event.close (Conn.server c),
            Event.close (Conn.client client) ] := by
    intro n c hn1 hn3 hbefore hok
    subst ha
    rw [← remoteAddrOf_eq] at hbefore hok ⊢
    obtain ⟨hs, he⟩ := dialWithRetry_first_ok dial _ n c hn1 hn3 hbefore hok
    have hcl := closes_handleConnection dial proxy (Conn.client client)
    rw [hs] at hcl
    have htrace := handleConnection_of_ok dial proxy (Conn.client client) (Conn.server c) he hs
    refine ⟨hcl, ?_, htrace⟩
    have h2 := congrArg closes htrace
    rw [hcl, closes_append] at h2
    simp only [closes] at h2
    cases hcd : closes (dialWithRetry dial (remoteAddrOf proxy.config)).events with
    | nil => rfl
    | cons x xs =>
      rw [hcd] at h2
      have := congrArg List.length h2
      simp at this
  refine ⟨hold.1, ?_, hsucc, ?_, ?_, ?_, ?_, hold.2.2.2.1, hold.2.2.2.2⟩
  · subst ha
    exact hold.2.1
  · intro hall
    subst ha
    rw [← remoteAddrOf_eq] at hall
    obtain ⟨e, _, hnone, _⟩ := dialWithRetry_all_fail dial _ hall
    have hcl := closes_handleConnection dial proxy (Conn.client client)
    rw [hnone] at hcl
    exact hcl
  · subst ha
    exact hold.2.2.1
  · intro w w1 g ref hg hp h
    exact step_connDial_by_oracle w w1 g ref (Conn.client client) proxy dial addr ha hg hp h
  · intro w w1 g ref serverConn copyDone hg h
    exact step_connEnds_result w w1 g ref (Conn.client client) serverConn copyDone hg h

/-- C9 at a remote `db:5432` that refuses every attempt, the handler's whole trace; and at one
that refuses twice and then gives connection 7, what the handler closes. -/
theorem handleConnection_closes_witness :
    handleConnection dialNever (proxyOf defA) (Conn.client 1) =
      [ Event.dial "db:5432" dialTimeout,
        Event.log ("Connection attempt " ++ toString 1 ++ " to " ++ "db:5432"
          ++ " failed: " ++ "connection refused"),
        Event.sleep (1 * Second),
        Event.dial "db:5432" dialTimeout,
        Event.log ("Connection attempt " ++ toString 2 ++ " to " ++ "db:5432"
          ++ " failed: " ++ "connection refused"),
        Event.sleep (2 * Second),
        Event.dial "db:5432" dialTimeout,
        Event.log ("Connection attempt " ++ toString 3 ++ " to " ++ "db:5432"
          ++ " failed: " ++ "connection refused"),
        Event.log ("Failed to connect to remote server " ++ "db:5432"
          ++ " for proxy " ++ (proxyOf defA).config.Name ++ " after 3 attempts: "
          ++ "connection refused"),
        Event.close (Conn.client 1) ] ∧
      closes (handleConnection dialThirdOk (proxyOf defA) (Conn.client 1))
        = [Conn.server 7, Conn.client 1] :=
  ⟨(handleConnection_closes dialNever (proxyOf defA) 1 "db:5432" rfl).2.2.2.2.1
      "connection refused" "connection refused" "connection refused" rfl rfl rfl,
    ((handleConnection_closes dialThirdOk (proxyOf defA) 1 "db:5432" rfl).2.2.1 3 7
      (by decide) (by decide)
      (fun i _ hi3 => ⟨"connection refused", by
        have hne : i ≠ 3 := by omega
        simp [dialThirdOk, hne]⟩)
      rfl).1⟩

/-! ## handleProxy: the accept loop -/

theorem handleProxyLoop_cons_cancel (name : String) (o : AcceptObs) (rest : List AcceptObs)
    (h : observesCancel o = true) :
    handleProxyLoop name (o :: rest)
      = (true, if o.doneBefore then [] else [Event.accept]) := by
  obtain ⟨b, r, a⟩ := o
  cases b
  · cases r with
    | error e =>
      have ha : a = true := by simpa [observesCancel] using h
      subst ha
      simp [handleProxyLoop, selectStep, acceptStep]
    | ok c => simp [observesCancel] at h
  · simp [handleProxyLoop, selectStep]

theorem handleProxyLoop_cons_continue (name : String) (o : AcceptObs) (rest : List AcceptObs)
    (h : observesCancel o = false) :
    handleProxyLoop name (o :: rest)
      = ((handleProxyLoop name rest).1, iterEvents name o ++ (handleProxyLoop name rest).2) := by
  obtain ⟨b, r, a⟩ := o
  cases b
  · cases r with
    | error e =>
      have ha : a = false := by simpa [observesCancel] using h
      subst ha
      simp [handleProxyLoop, selectStep, acceptStep, iterEvents]
    | ok c => simp [handleProxyLoop, selectStep, acceptStep, iterEvents]
  · simp [observesCancel] at h

theorem handleProxyLoop_running (name : String) (obs : List AcceptObs)
    (h : ∀ o ∈ obs, observesCancel o = false) :
    handleProxyLoop name obs = (false, loopEvents name obs) := by
  induction obs with
  | nil => rfl
  | cons o rest ih =>
    rw [handleProxyLoop_cons_continue name o rest (h o (List.mem_cons_self _ _)),
      ih (fun p hp => h p (List.mem_cons_of_mem _ hp))]
    rfl

theorem handleProxyLoop_returns (name : String) (pre : List AcceptObs) (o : AcceptObs)
    (post : List AcceptObs) (hpre : ∀ p ∈ pre, observesCancel p = false)
    (ho : observesCancel o = true) :
    handleProxyLoop name (pre ++ o :: post)
      = (true, loopEvents name pre ++ (if o.doneBefore then [] else [Event.accept])) := by
  induction pre with
  | nil =>
    rw [List.nil_append, handleProxyLoop_cons_cancel name o post ho]
    rfl
  | cons p pre ih =>
    rw [List.cons_append, handleProxyLoop_cons_continue name p _ (hpre p (List.mem_cons_self _ _)),
      ih (fun q hq => hpre q (List.mem_cons_of_mem _ hq))]
    simp [loopEvents]

/-- Every list of observations either has none that observes the cancellation, or splits at
the first one that does. -/
theorem first_cancel_split (obs : List AcceptObs) :
    (∀ o ∈ obs, observesCancel o = false) ∨
      ∃ pre o post, obs = pre ++ o :: post ∧ (∀ p ∈ pre, observesCancel p = false) ∧
        observesCancel o = true := by
  induction obs with
  | nil => exact Or.inl (by simp)
  | cons o rest ih =>
    cases ho : observesCancel o with
    | true => exact Or.inr ⟨[], o, rest, rfl, by simp, ho⟩
    | false =>
      rcases ih with h | ⟨pre, q, post, heq, hpre, hq⟩
      · left
        intro p hp
        rcases List.mem_cons.mp hp with rfl | hp
        · exact ho
        · exact h p hp
      · right
        refine ⟨o :: pre, q, post, by rw [heq]; rfl, ?_, hq⟩
        intro p hp
        rcases List.mem_cons.mp hp with rfl | hp
        · exact ho
        · exact hpre p hp

/-- C10: run on any observations of its iterations, `handleProxy` has returned exactly when
some iteration observed the cancellation scope as triggered, at line 164 or at line 172 after
a failed `Accept`. It returns at the first such iteration: every iteration before it called
`Accept` once and then either spawned one handler for the accepted connection or logged the
accept error, and went on to the next iteration. With no such iteration the loop is still
running after all of them. -/
theorem handleProxy_exits_on_cancel (proxy : Proxy) (obs : List AcceptObs) :
    ((handleProxy proxy obs).1 = true ↔ ∃ o ∈ obs, observesCancel o = true) ∧
    (∀ (pre : List AcceptObs) (o : AcceptObs) (post : List AcceptObs),
      obs = pre ++ o :: post → (∀ p ∈ pre, observesCancel p = false) →
      observesCancel o = true →
      handleProxy proxy obs =
        (true, loopEvents proxy.config.Name pre
          ++ (if o.doneBefore then [] else [Event.accept])
          ++ [Event.closeListener, Event.wgDone])) ∧
    ((∀ o ∈ obs, observesCancel o = false) →
      handleProxy proxy obs = (false, loopEvents proxy.config.Name obs)) ∧
    (∀ (o : AcceptObs) (c : Nat), o.result = .ok c →
      iterEvents proxy.config.Name o
        = [Event.accept, Event.goHandleConnection (Conn.client c)]) ∧
    (∀ (o : AcceptObs) (e : String), o.result = .error e →
      iterEvents proxy.config.Name o
        = [Event.accept,
            Event.log ("Failed to accept connection for proxy " ++ proxy.config.Name
              ++ ": " ++ e)]) := by
  have hB : ∀ (pre : List AcceptObs) (o : AcceptObs) (post : List AcceptObs),
      obs = pre ++ o :: post → (∀ p ∈ pre, observesCancel p = false) →
      observesCancel o = true →
      handleProxy proxy obs =
        (true, loopEvents proxy.config.Name pre
          ++ (if o.doneBefore then [] else [Event.accept])
          ++ [Event.closeListener, Event.wgDone]) := by
    intro pre o post heq hpre ho
    unfold handleProxy
    rw [heq, handleProxyLoop_returns proxy.config.Name pre o post hpre ho]
    simp
  have hC : (∀ o ∈ obs, observesCancel o = false) →
      handleProxy proxy obs = (false, loopEvents proxy.config.Name obs) := by
    intro h
    unfold handleProxy
    rw [handleProxyLoop_running proxy.config.Name obs h]
    simp
  refine ⟨?_, hB, hC, ?_, ?_⟩
  · constructor
    · intro hret
      rcases first_cancel_split obs with h | ⟨pre, o, post, heq, _, ho⟩
      · rw [hC h] at hret
        cases hret
      · exact ⟨o, by rw [heq]; simp, ho⟩
    · rintro ⟨o, hmem, ho⟩
      rcases first_cancel_split obs with h | ⟨pre, q, post, heq, hpre, hq⟩
      · rw [h o hmem] at ho
        cases ho
      · rw [hB pre q post heq hpre hq]
  · intro o c hc
    simp [iterEvents, hc]
  · intro o e he
    simp [iterEvents, he]

/-- C10 at `sampleObs`: the loop spawns a handler, logs the transient error, and returns at the
accept error that comes with the scope canceled. -/
theorem handleProxy_exits_on_cancel_witness :
    handleProxy (proxyOf defA) sampleObs =
      (true,
        [ Event.accept, Event.goHandleConnection (Conn.client 5),
          Event.accept,
          Event.log ("Failed to accept connection for proxy " ++ "a" ++ ": "
            ++ "too many open files"),
          Event.accept,
          Event.closeListener, Event.wgDone ]) :=
  (handleProxy_exits_on_cancel (proxyOf defA) sampleObs).2.1
    [ { doneBefore := false, result := .ok 5, doneAfter := false },
      { doneBefore := false, result := .error "too many open files", doneAfter := false } ]
    { doneBefore := false, result := .error "use of closed network connection",
      doneAfter := true }
    [] rfl (by simp [observesCancel]) rfl

/-! ## shutdown: cancellation and a second call -/

theorem isCanceled_cancelProxy_self (heap : List Proxy) (ref : Nat) :
    IsCanceled (cancelProxy heap ref) ref := by
  intro p hp
  unfold cancelProxy at hp
  cases h : heap[ref]? with
  | none => rw [h] at hp; simp only at hp; rw [h] at hp; cases hp
  | some q =>
    rw [h] at hp
    simp only at hp
    rw [List.getElem?_set] at hp
    simp only [if_true] at hp
    split at hp
    · cases hp; rfl
    · cases hp

theorem isCanceled_cancelProxy_mono (heap : List Proxy) (ref r : Nat)
    (h : IsCanceled heap r) : IsCanceled (cancelProxy heap ref) r := by
  by_cases hr : ref = r
  · subst hr
    exact isCanceled_cancelProxy_self heap ref
  · intro p hp
    unfold cancelProxy at hp
    cases hq : heap[ref]? with
    | none => rw [hq] at hp; exact h p hp
    | some q =>
      rw [hq] at hp
      simp only at hp
      rw [List.getElem?_set_ne hr] at hp
      exact h p hp

theorem isCanceled_foldl_mono (l : List (String × Nat)) (heap : List Proxy) (r : Nat)
    (h : IsCanceled heap r) :
    IsCanceled (l.foldl (fun heap e => cancelProxy heap e.2) heap) r := by
  induction l generalizing heap with
  | nil => exact h
  | cons e l ih => exact ih _ (isCanceled_cancelProxy_mono heap e.2 r h)

theorem isCanceled_foldl_mem (l : List (String × Nat)) (heap : List Proxy) (n : String)
    (r : Nat) (hmem : (n, r) ∈ l) :
    IsCanceled (l.foldl (fun heap e => cancelProxy heap e.2) heap) r := by
  induction l generalizing heap with
  | nil => cases hmem
  | cons e l ih =>
    rcases List.mem_cons.mp hmem with heq | hin
    · subst heq
      exact isCanceled_foldl_mono l _ r (isCanceled_cancelProxy_self heap r)
    · exact ih _ hin

theorem cancelProxy_of_isCanceled (heap : List Proxy) (ref : Nat) (h : IsCanceled heap ref) :
    cancelProxy heap ref = heap := by
  unfold cancelProxy
  cases hq : heap[ref]? with
  | none => rfl
  | some q =>
    simp only
    have hc := h q hq
    have hlt : ref < heap.length := by
      rcases Nat.lt_or_ge ref heap.length with hl | hl
      · exact hl
      · rw [List.getElem?_eq_none hl] at hq; cases hq
    have hget : heap.get ⟨ref, hlt⟩ = q := by
      rw [List.getElem?_eq_getElem hlt] at hq
      exact Option.some.inj hq
    have hqq : { q with canceled := true } = q := by
      cases q
      simp only at hc
      subst hc
      rfl
    rw [hqq, ← hget]
    exact set_self_eq heap ref hlt

theorem foldl_cancelProxy_of_allCanceled (l : List (String × Nat)) (heap : List Proxy)
    (h : ∀ (n : String) (r : Nat), (n, r) ∈ l → IsCanceled heap r) :
    l.foldl (fun heap e => cancelProxy heap e.2) heap = heap := by
  induction l with
  | nil => rfl
  | cons e l ih =>
    rw [List.foldl_cons, cancelProxy_of_isCanceled heap e.2 (h e.1 e.2 (List.mem_cons_self _ _))]
    exact ih (fun n r hm => h n r (List.mem_cons_of_mem _ hm))

theorem allCanceled_shutdownCancel (w : World) : AllCanceled (shutdownCancel w) := by
  refine ⟨rfl, ?_⟩
  intro n ref hmem
  exact isCanceled_foldl_mem w.pm.proxies w.heap n ref hmem

theorem shutdownCancel_of_allCanceled (w : World) (h : AllCanceled w) :
    { shutdownCancel w with logs := w.logs } = w := by
  obtain ⟨hc, hall⟩ := h
  unfold shutdownCancel
  rw [foldl_cancelProxy_of_allCanceled w.pm.proxies w.heap hall]
  cases w with
  | mk pm heap goroutines listens closedConns main logs =>
    cases pm with
    | mk config proxies canceled wg =>
      simp only at hc
      subst hc
      rfl

/-- C7: the cancel phase of `shutdown` leaves the manager's scope and the scope of every
registered proxy canceled, without touching the registry or the wait-group count. In any
state `w1` where these scopes are canceled and the count is zero, as the first call leaves it
on return, a further `shutdown` returns and changes nothing but the log: registry,
cancellation flags, proxies, wait-group count and goroutines are as before. In particular a
`shutdown` that returns can be followed by a second one. -/
theorem shutdown_idempotent (w w1 : World) :
    AllCanceled (shutdownCancel w) ∧
    (shutdownCancel w).pm.proxies = w.pm.proxies ∧
    (shutdownCancel w).pm.wg = w.pm.wg ∧
    (AllCanceled w1 → w1.pm.wg = 0 →
      ∃ w2, shutdown w1 = some w2 ∧ w2.pm = w1.pm ∧ w2.heap = w1.heap ∧
        w2.goroutines = w1.goroutines ∧ { w2 with logs := w1.logs } = w1) ∧
    (shutdown w = some w1 → AllCanceled w1 ∧ w1.pm.wg = 0) := by
  refine ⟨allCanceled_shutdownCancel w, rfl, rfl, ?_, ?_⟩
  · intro hall hwg
    have hfix := shutdownCancel_of_allCanceled w1 hall
    have hwg1 : (shutdownCancel w1).pm.wg = 0 := hwg
    refine ⟨{ shutdownCancel w1 with
        logs := (shutdownCancel w1).logs ++ ["Proxy manager shutdown complete"] }, ?_, ?_, ?_, ?_, ?_⟩
    · unfold shutdown
      simp only [hwg1, if_true]
    · exact (congrArg World.pm hfix : _)
    · exact (congrArg World.heap hfix : _)
    · rfl
    · exact hfix
  · intro h
    unfold shutdown at h
    simp only at h
    split at h
    · next hwg =>
      cases h
      exact ⟨allCanceled_shutdownCancel w, hwg⟩
    · cases h

/-- C7 at the end of `untrackedRun`, where the first `shutdown` has returned: a second
`shutdown` returns and changes only the log. -/
theorem shutdown_idempotent_witness :
    ∃ w2, shutdown untrackedWorld = some w2 ∧ w2.pm = untrackedWorld.pm ∧
      w2.heap = untrackedWorld.heap ∧ w2.goroutines = untrackedWorld.goroutines ∧
      { w2 with logs := untrackedWorld.logs } = untrackedWorld :=
  (shutdown_idempotent untrackedWorld untrackedWorld).2.2.2.1 (by decide) rfl

/-! ## shutdown: what the wait group counts -/

theorem countP_set_same {α : Type} (p : α → Bool) (l : List α) (i : Nat) (x y : α)
    (hy : l[i]? = some y) (hp : p y = p x) : (l.set i x).countP p = l.countP p := by
  induction l generalizing i with
  | nil => simp at hy
  | cons a l ih =>
    cases i with
    | zero =>
      simp at hy
      subst hy
      simp [List.countP_cons, hp]
    | succ i =>
      simp at hy
      simp [List.countP_cons, ih i hy]

theorem countP_set_drop {α : Type} (p : α → Bool) (l : List α) (i : Nat) (x y : α)
    (hy : l[i]? = some y) (hpy : p y = true) (hpx : p x = false) :
    (l.set i x).countP p + 1 = l.countP p := by
  induction l generalizing i with
  | nil => simp at hy
  | cons a l ih =>
    cases i with
    | zero =>
      simp at hy
      subst hy
      simp [List.countP_cons, hpy, hpx]
    | succ i =>
      simp at hy
      have := ih i hy
      simp only [List.set_cons_succ, List.countP_cons]
      omega

theorem countP_new_loops (base j : Nat) :
    ((List.range j).map (fun i => Goroutine.handleProxy (base + i) LoopPC.select)).countP
      (fun g => g.isLoop && g.running) = j := by
  rw [List.countP_eq_length.mpr]
  · simp
  · intro g hg
    rw [List.mem_map] at hg
    obtain ⟨i, _, rfl⟩ := hg
    rfl

theorem runningLoops_loopExit (w : World) (g ref : Nat) (pc : LoopPC)
    (hg : w.goroutines[g]? = some (Goroutine.handleProxy ref pc)) (hpc : pc ≠ LoopPC.returned)
    (hinv : w.pm.wg = runningLoops w) :
    (loopExit w g ref).pm.wg = runningLoops (loopExit w g ref) := by
  have h := countP_set_drop (fun g => g.isLoop && g.running) w.goroutines g
    (Goroutine.handleProxy ref LoopPC.returned) (Goroutine.handleProxy ref pc) hg
    (by simp [Goroutine.isLoop, Goroutine.running, hpc])
    (by simp [Goroutine.isLoop, Goroutine.running])
  unfold runningLoops at hinv ⊢
  simp only [loopExit]
  omega

/-- Every step keeps the wait-group counter equal to the number of running accept loops. -/
theorem step_wg (a : Action) (w w1 : World) (hinv : w.pm.wg = runningLoops w)
    (h : step a w = some w1) : w1.pm.wg = runningLoops w1 := by
  cases a with
  | startProxies net =>
    have hf := startProxiesLoop_fields net w.pm.config.Proxies w
    obtain ⟨_, _, _, h4, _, _, _, _, h9, _⟩ := hf
    have hw : (startProxies net w).2.pm.wg = runningLoops (startProxies net w).2 := by
      unfold runningLoops at hinv ⊢
      unfold startProxies
      rw [h4, h9, List.countP_append, countP_new_loops, hinv]
    unfold step at h
    split at h
    · cases h
    · simp only at h
      split at h
      · split at h
        · next heq =>
          cases h
          have : (startProxies net w).2 = _ := congrArg Prod.snd heq
          rw [this] at hw
          exact hw
        · next heq =>
          cases h
          have : (startProxies net w).2 = _ := congrArg Prod.snd heq
          rw [this] at hw
          exact hw
      · cases h
  | loopSelect g =>
    unfold step at h
    split at h
    · cases h
    · simp only at h
      split at h
      · next ref hg =>
        split at h
        · cases h
          exact runningLoops_loopExit w g ref LoopPC.select hg (by decide) hinv
        · next pc hne =>
          cases h
          have hpc : selectStep (ctxDone w ref) = LoopPC.accept := by
            unfold selectStep at hne ⊢
            split
            · next hd => simp [hd] at hne
            · rfl
          unfold runningLoops at hinv ⊢
          simp only
          rw [countP_set_same _ _ g _ _ hg (by rw [hpc]; rfl)]
          exact hinv
      · cases h
  | acceptReturns g result =>
    unfold step at h
    split at h
    · cases h
    · simp only at h
      split at h
      · next ref hg =>
        split at h
        · cases h
        · split at h
          · cases h
            exact runningLoops_loopExit w g ref LoopPC.accept hg (by decide) hinv
          · next pc evs hne heq =>
            cases h
            have hpc : pc = LoopPC.select := by
              unfold acceptStep at heq
              cases result with
              | error e =>
                simp only at heq
                split at heq
                · exact (hne (congrArg Prod.fst heq).symm).elim
                · exact (congrArg Prod.fst heq).symm
              | ok c => exact (congrArg Prod.fst heq).symm
            subst hpc
            have hset : (w.goroutines.set g (Goroutine.handleProxy ref LoopPC.select)).countP
                (fun g => g.isLoop && g.running) = w.goroutines.countP
                (fun g => g.isLoop && g.running) :=
              countP_set_same _ _ g _ _ hg (by rfl)
            unfold acceptStep at heq
            cases result with
            | error e =>
              simp only at heq
              split at heq
              · cases heq
              · cases heq
                unfold runningLoops at hinv ⊢
                simp only [List.foldl_cons, List.foldl_nil, applyLoopEvent]
                rw [hset]
                exact hinv
            | ok c =>
              simp only at heq
              cases heq
              unfold runningLoops at hinv ⊢
              simp only [List.foldl_cons, List.foldl_nil, applyLoopEvent]
              rw [List.countP_append, hset]
              simpa [Goroutine.isLoop] using hinv
      · cases h
  | connDial g dial =>
    unfold step at h
    split at h
    · cases h
    · simp only at h
      split at h
      · next ref clientConn hg =>
        split at h
        · split at h
          · cases h
            unfold runningLoops at hinv ⊢
            simp only
            rw [countP_set_same _ _ g _ _ hg (by rfl)]
            exact hinv
          · split at h
            · cases h
              unfold runningLoops at hinv ⊢
              simp only
              rw [countP_set_same _ _ g _ _ hg (by rfl)]
              exact hinv
            · cases h
        · cases h
      · cases h
  | connEnds g copyDone =>
    unfold step at h
    split at h
    · cases h
    · simp only at h
      split at h
      · next ref clientConn serverConn hg =>
        split at h
        · cases h
          unfold runningLoops at hinv ⊢
          simp only
          rw [countP_set_same _ _ g _ _ hg (by rfl)]
          exact hinv
        · cases h
      · cases h
  | shutdownSignal =>
    unfold step at h
    split at h
    · cases h
    · simp only at h
      split at h
      · cases h
        exact hinv
      · cases h
  | shutdownReturn =>
    unfold step at h
    split at h
    · cases h
    · simp only at h
      split at h
      · cases h
        exact hinv
      · cases h

theorem run_wg (actions : List Action) (w w1 : World) (hinv : w.pm.wg = runningLoops w)
    (h : run actions w = some w1) : w1.pm.wg = runningLoops w1 := by
  induction actions generalizing w with
  | nil =>
    simp only [run] at h
    cases h
    exact hinv
  | cons a rest ih =>
    simp only [run] at h
    split at h
    · next w2 hstep => exact ih w2 (step_wg a w w2 hinv hstep) h
    · cases h

/-- In every reachable state the wait-group counter is the number of accept loops that have not
returned: connection handlers are not counted. -/
theorem wg_counts_accept_loops (config : Config) (w : World) (h : Reachable config w) :
    w.pm.wg = runningLoops w := by
  obtain ⟨actions, hrun⟩ := h
  exact run_wg actions (newWorld config) w rfl hrun

/-- C5, evaluated on the code: after `untrackedRun` the call of `shutdown` has returned with
the wait-group counter at zero while the connection handler spawned at line 181 is still in
its dial loop; it was never counted, so the state does not satisfy `AllTracked`. -/
theorem shutdown_returns_while_handler_runs :
    run untrackedRun (newWorld oneConfig) = some untrackedWorld ∧
      Reachable oneConfig untrackedWorld ∧
      untrackedWorld.main = MainPC.done ∧
      untrackedWorld.pm.wg = 0 ∧
      runningTasks untrackedWorld
        = [Goroutine.handleConnection 0 (Conn.client 5) ConnPC.dialing] ∧
      ¬ AllTracked untrackedWorld := by
  have hrun : run untrackedRun (newWorld oneConfig) = some untrackedWorld := by rfl
  refine ⟨hrun, ⟨untrackedRun, hrun⟩, rfl, rfl, by rfl, ?_⟩
  decide

/-! ## shutdown: what cancellation does to a listener -/

theorem listener_cancelProxy (heap : List Proxy) (r ref : Nat) :
    (cancelProxy heap r)[ref]?.map (fun p => p.listener)
      = heap[ref]?.map (fun p => p.listener) := by
  unfold cancelProxy
  cases hq : heap[r]? with
  | none => rfl
  | some q =>
    simp only
    by_cases hr : r = ref
    · subst hr
      have hlt : r < heap.length := by
        rcases Nat.lt_or_ge r heap.length with hl | hl
        · exact hl
        · rw [List.getElem?_eq_none hl] at hq; cases hq
      rw [List.getElem?_set_self hlt, hq]
      rfl
    · rw [List.getElem?_set_ne hr]

theorem listener_foldl_cancelProxy (l : List (String × Nat)) (heap : List Proxy) (ref : Nat) :
    (l.foldl (fun heap e => cancelProxy heap e.2) heap)[ref]?.map (fun p => p.listener)
      = heap[ref]?.map (fun p => p.listener) := by
  induction l generalizing heap with
  | nil => rfl
  | cons e l ih => rw [List.foldl_cons, ih, listener_cancelProxy]

/-- The cancel phase of `shutdown` closes no listener and opens none. -/
theorem listenerClosed_shutdownCancel (w : World) (ref : Nat) :
    listenerClosed (shutdownCancel w) ref = listenerClosed w ref := by
  have h := listener_foldl_cancelProxy w.pm.proxies w.heap ref
  unfold listenerClosed shutdownCancel
  simp only
  cases h1 : (w.pm.proxies.foldl (fun heap e => cancelProxy heap e.2) w.heap)[ref]? with
  | none =>
    cases h2 : w.heap[ref]? with
    | none => rfl
    | some q => rw [h1, h2] at h; cases h
  | some p =>
    cases h2 : w.heap[ref]? with
    | none => rw [h1, h2] at h; cases h
    | some q =>
      rw [h1, h2] at h
      simp only [Option.map_some', Option.some.injEq] at h
      simp only [h]

/-- C6, evaluated on the code: the cancel phase of `shutdown` leaves every listener as it was,
open if it was open. After `stuckRun` the scope of the proxy is canceled and the handler of
the relayed connection has returned and closed both sockets, but the listener is still open
and the accept loop still blocked in `Accept`; `shutdown` cannot return, and the only step the
program can take is the return of that `Accept`, which needs a client to connect (or the
operating system to fail the call). Once a further client connects, the loop returns and
`shutdown` does. -/
theorem shutdown_waits_for_next_accept :
    (∀ (w : World) (ref : Nat), listenerClosed (shutdownCancel w) ref = listenerClosed w ref) ∧
      run stuckRun (newWorld oneConfig) = some stuckWorld ∧
      ctxDone stuckWorld 0 = true ∧
      listenerClosed stuckWorld 0 = false ∧
      stuckWorld.goroutines =
        [ Goroutine.handleProxy 0 LoopPC.accept,
          Goroutine.handleConnection 0 (Conn.client 5) ConnPC.returned ] ∧
      stuckWorld.closedConns = [Conn.server 9, Conn.client 5] ∧
      stuckWorld.main = MainPC.waiting ∧
      step Action.shutdownReturn stuckWorld = none ∧
      (∀ (a : Action) (w1 : World), step a stuckWorld = some w1 →
        ∃ result, a = Action.acceptReturns 0 result) ∧
      (∃ w2, run [Action.acceptReturns 0 (.ok 6), Action.loopSelect 0, Action.shutdownReturn]
          stuckWorld = some w2 ∧ w2.main = MainPC.done) := by
  refine ⟨listenerClosed_shutdownCancel, by rfl, by rfl, by rfl, rfl, rfl, rfl, by rfl, ?_, ?_⟩
  · intro a w1 h
    cases a with
    | startProxies net => simp [step, exited, stuckWorld] at h
    | loopSelect g =>
      match g with
      | 0 => simp [step, exited, stuckWorld] at h
      | 1 => simp [step, exited, stuckWorld] at h
      | g + 2 => simp [step, exited, stuckWorld] at h
    | acceptReturns g result =>
      match g with
      | 0 => exact ⟨result, rfl⟩
      | 1 => simp [step, exited, stuckWorld] at h
      | g + 2 => simp [step, exited, stuckWorld] at h
    | connDial g dial =>
      match g with
      | 0 => simp [step, exited, stuckWorld] at h
      | 1 => simp [step, exited, stuckWorld] at h
      | g + 2 => simp [step, exited, stuckWorld] at h
    | connEnds g copyDone =>
      match g with
      | 0 => simp [step, exited, stuckWorld] at h
      | 1 => simp [step, exited, stuckWorld] at h
      | g + 2 => simp [step, exited, stuckWorld] at h
    | shutdownSignal => simp [step, exited, stuckWorld] at h
    | shutdownReturn => simp [step, exited, stuckWorld] at h
  · exact ⟨_, by rfl, by rfl⟩

end TcpProxy
